import Mathlib

/-!
Verification of `tensorflow/tools/api/generator/create_python_api.py`.

We shallowly embed the script's pure logic in Lean.  Python strings are
modelled as Lean `String`s, with the handful of Python string operations
the script uses (`split`, `join`, `in`, `rfind`, `endswith`, `strip`,
`replace`, `os.path.dirname`, `os.path.normpath`) re-implemented below on
character lists so that everything evaluates inside the kernel.  We model
a POSIX platform, i.e. `os.sep = '/'` (so `output_file.replace(os.sep, '/')`
is the identity).  Python `set`s are modelled as insertion-ordered lists
used only through membership, Python `dict`s / `defaultdict(list)` as
insertion-ordered association lists (a `dict` update keeps the original
position of an existing key and replaces its value, which is what
`dictInsert` below does).  The module scan reads `sys.modules`; we make
that ambient state an explicit `List PyModule` parameter.  `dir(module)`
enumeration is the `members` list of a `PyModule`, in the order `dir`
yields it.  Raising an exception is modelled by returning the error next
to the state that the mutating code had built up at raise time.
-/

/-! ### Python string primitives -/

/-- First index `i` of `hay` such that `pat` is a prefix of `hay.drop i`
(Python `str.find` when it succeeds). -/
def findSub (pat : List Char) : List Char → Option Nat
  | [] => if pat = [] then some 0 else none
  | c :: rest =>
    if pat.isPrefixOf (c :: rest) then some 0
    else
      match findSub pat rest with
      | some i => some (i + 1)
      | none => none

/-- Last index `i` such that `pat` is a prefix of `hay.drop i`
(Python `str.rfind` when it succeeds). -/
def rfindSub (pat hay : List Char) : Option Nat :=
  ((List.range (hay.length + 1)).filter (fun i => pat.isPrefixOf (hay.drop i))).getLast?

/-- Python `pat in s` (substring containment). -/
def pyContains (s pat : String) : Bool :=
  (findSub pat.toList s.toList).isSome

/-- Fuel-driven worker for Python `str.split(sep)` with an explicit
separator: non-overlapping splitting, left to right. -/
def pySplitGo (pat : List Char) : Nat → List Char → List (List Char)
  | 0, s => [s]
  | fuel + 1, s =>
    match findSub pat s with
    | none => [s]
    | some i => s.take i :: pySplitGo pat fuel (s.drop (i + pat.length))

/-- Python `s.split(sep)` for a non-empty separator `sep`. -/
def pySplit (s sep : String) : List String :=
  (pySplitGo sep.toList (s.toList.length + 1) s.toList).map String.mk

/-- Python `sep.join(xs)`. -/
def pyJoin (sep : String) : List String → String
  | [] => ""
  | [x] => x
  | x :: y :: xs => x ++ sep ++ pyJoin sep (y :: xs)

/-- Python `s.replace(old, new)` (non-overlapping, left to right):
equivalent to `new.join(s.split(old))`. -/
def pyReplace (s old new : String) : String :=
  pyJoin new (pySplit s old)

/-- Python `s.endswith(suffix)`. -/
def pyEndsWith (s suffix : String) : Bool :=
  suffix.toList.isSuffixOf s.toList

/-- Python `s.startswith(prefix)`. -/
def pyStartsWith (s p : String) : Bool :=
  p.toList.isPrefixOf s.toList

/-- Python `s.strip(c)` for a single strip character `c`: removes every
leading and trailing occurrence of `c`. -/
def pyStrip (s : String) (c : Char) : String :=
  String.mk (((s.toList.dropWhile (fun d => d = c)).reverse.dropWhile (fun d => d = c)).reverse)

/-- Lexicographic (code-point) comparison of character lists, the order
Python `sorted` uses on `str`. -/
def charListLe : List Char → List Char → Bool
  | [], _ => true
  | _ :: _, [] => false
  | a :: as, b :: bs => if a = b then charListLe as bs else decide (a < b)

/-- Python `s <= t` on strings. -/
def pyLe (a b : String) : Bool :=
  charListLe a.toList b.toList

/-- Insert into a `pyLe`-sorted list. -/
def insertSorted (x : String) : List String → List String
  | [] => [x]
  | y :: ys => if pyLe x y then x :: y :: ys else y :: insertSorted x ys

/-- Python `sorted` on a list of strings (insertion sort; same
nondecreasing result as Python's stable sort since ties are equal
strings). -/
def sortStrings (l : List String) : List String :=
  l.foldr insertSorted []

/-- `os.path.dirname` on POSIX: everything before the last `/`, with
trailing slashes stripped unless the result is all slashes; `""` when
there is no slash at all. -/
def dirname (p : String) : String :=
  let parts := pySplit p "/"
  match parts with
  | [] => ""
  | [_] => ""
  | _ =>
    let head := pyJoin "/" parts.dropLast ++ "/"
    if head.toList.all (fun c => c = '/') then head
    else String.mk (head.toList.reverse.dropWhile (fun c => c = '/')).reverse

/-- `os.path.normpath` on POSIX (faithful to `posixpath.normpath`):
collapses `//` and `.` components, resolves `..` where possible. -/
def normpath (p : String) : String :=
  if p = "" then "."
  else
    let initialSlashes : Nat :=
      if pyStartsWith p "/" then
        (if pyStartsWith p "//" ∧ ¬ pyStartsWith p "///" then 2 else 1)
      else 0
    let comps := pySplit p "/"
    let newComps := comps.foldl
      (fun acc c =>
        if c = "" ∨ c = "." then acc
        else if c ≠ ".." ∨ (initialSlashes = 0 ∧ acc = []) ∨ acc.getLast? = some ".." then
          acc ++ [c]
        else if acc ≠ [] then acc.dropLast
        else acc)
      []
    let joined := pyJoin "/" newComps
    let out := String.mk (List.replicate initialSlashes '/') ++ joined
    if out = "" then "." else out

/-! ### Constants of the script -/

def _API_CONSTANTS_ATTR : String := "_tf_api_constants"

def _API_NAMES_ATTR : String := "_tf_api_names"

def _API_DIR : String := "/api/"

def _OUTPUT_MODULE : String := "tensorflow.tools.api.generator.api"

def _GENERATED_FILE_HEADER : String :=
  "\"\"\"Imports for Python API.\n\nThis file is MACHINE GENERATED! Do not edit.\nGenerated by: tensorflow/tools/api/generator/create_python_api.py script.\n\"\"\"\n"

/-! ### Errors -/

/-- The exceptions `create_python_api.py` can raise.
`symbolExposedTwice` is `SymbolExposedTwiceError` and carries the
conflicting full api name its message reports; `valueError` is the
`ValueError` for a path outside the api directory (carrying the message);
`missingOutputs` is the final aggregated `ValueError`, carrying the
sorted list of missing output file strings its message joins. -/
inductive ApiError where
  | symbolExposedTwice (fullApiName : String)
  | valueError (msg : String)
  | missingOutputs (missingFiles : List String)
deriving DecidableEq, Repr

/-! ### format_import -/

/-- `format_import` from the script.  The Python truthiness test
`if source_module_name:` is non-emptiness on strings. -/
def format_import (source_module_name source_name dest_name : String) : String :=
  if source_module_name ≠ "" then
    if source_name = dest_name then
      "from " ++ source_module_name ++ " import " ++ source_name
    else
      "from " ++ source_module_name ++ " import " ++ source_name ++ " as " ++ dest_name
  else
    if source_name = dest_name then
      "import " ++ source_name
    else
      "import " ++ source_name ++ " as " ++ dest_name

/-! ### The builder (`_ModuleImportsBuilder`) -/

/-- State of `_ModuleImportsBuilder`: `module_imports` is the
`defaultdict(list)` mapping destination module name to its list of
rendered import statements (insertion-ordered association list), and
`seen_api_names` is the `_seen_api_names` set (as an insertion-ordered
list used through membership). -/
structure Builder where
  module_imports : List (String × List String)
  seen_api_names : List String
deriving DecidableEq, Repr

/-- Reading `d[k]` from a `defaultdict(list)` inserts an empty list for a
missing key; this is that key-creating side effect. -/
def ensureKey (mi : List (String × List String)) (k : String) : List (String × List String) :=
  if mi.any (fun p => p.1 = k) then mi else mi ++ [(k, [])]

/-- The list stored at key `k` (empty when the key is absent, matching
the `defaultdict(list)` read). -/
def lookupList (mi : List (String × List String)) (k : String) : List String :=
  match mi.find? (fun p => p.1 = k) with
  | some p => p.2
  | none => []

/-- `d[k].append(s)` for a key already present. -/
def appendAt (mi : List (String × List String)) (k : String) (s : String) :
    List (String × List String) :=
  mi.map (fun p => if p.1 = k then (p.1, p.2 ++ [s]) else p)

/-- Lines 96-98: the full api name under which `dest_name` is exposed -
`dest_module_name + '.' + dest_name`, or just `dest_name` when the
destination module is the root `""` (Python truthiness on strings). -/
def fullApiName (dest_module_name dest_name : String) : String :=
  if dest_module_name ≠ "" then dest_module_name ++ "." ++ dest_name else dest_name

/-- `_ModuleImportsBuilder.add_import`.  Returns the builder as the
Python object stands when the call returns or raises, paired with
`some e` when `SymbolExposedTwiceError` is raised.  Note that the
membership test `import_str in self.module_imports[dest_module_name]`
creates the key (with an empty list) before anything else, and that the
raise happens after that but before any append or registration. -/
def add_import (b : Builder)
    (dest_module_name source_module_name source_name dest_name : String) :
    Builder × Option ApiError :=
  let import_str := format_import source_module_name source_name dest_name
  let mi := ensureKey b.module_imports dest_module_name
  if import_str ∈ lookupList mi dest_module_name then
    ({ b with module_imports := mi }, none)
  else
    if fullApiName dest_module_name dest_name ∈ b.seen_api_names then
      ({ b with module_imports := mi },
        some (ApiError.symbolExposedTwice (fullApiName dest_module_name dest_name)))
    else
      ({ module_imports := appendAt mi dest_module_name import_str,
         seen_api_names := b.seen_api_names ++ [fullApiName dest_module_name dest_name] }, none)

/-- Per-namespace statement lists of a builder are duplicate-free. -/
def NodupLists (b : Builder) : Prop :=
  ∀ k, (lookupList b.module_imports k).Nodup

/-! ### The module scan (`get_api_imports`, lines 118-160)

A scanned module member is `(module_contents_name, attr)`.  We record of
each Python attribute object exactly what the scan reads from it:
`aid` is `id(attr)` before `tf_decorator.unwrap`; `constPairs` is the
value iterated when the member is the `_tf_api_constants` attribute (its
constant values rendered as the strings `add_import` receives);
`unwrappedId` is `id(attr)` after `tf_decorator.unwrap`; `apiNames` is
`some` of `attr._tf_api_names` when the unwrapped object's `__dict__`
carries `_tf_api_names`, else `none`. -/

structure Attr where
  aid : Nat
  constPairs : List (List String × String)
  unwrappedId : Nat
  apiNames : Option (List String)
deriving DecidableEq, Repr

/-- One entry of `dir(module)` together with the attribute it names. -/
structure Member where
  name : String
  attr : Attr
deriving DecidableEq, Repr

/-- A loaded module: `__name__` and its `dir()` entries in `dir` order. -/
structure PyModule where
  name : String
  members : List Member
deriving DecidableEq, Repr

/-- A record of one `add_import` call the scan makes.  `const` calls come
from the `_tf_api_constants` branch, `symb` calls from the
`_tf_api_names` branch; `prov` is the global index of the originating
member among all scanned members, and `uid` the unwrapped identity. -/
inductive Emission where
  | const (prov : Nat) (destModule sourceModule value destName : String)
  | symb (uid prov : Nat) (destModule sourceModule sourceName destName : String)
deriving DecidableEq, Repr

def Emission.provOf : Emission → Nat
  | .const p _ _ _ _ => p
  | .symb _ p _ _ _ _ => p

def Emission.uidOf : Emission → Option Nat
  | .const _ _ _ _ _ => none
  | .symb u _ _ _ _ _ => some u

def Emission.isSymUid (u : Nat) : Emission → Bool
  | .const _ _ _ _ _ => false
  | .symb u2 _ _ _ _ _ => u2 = u

/-- The symbol emissions of identity `u` in a trace. -/
def symEmissions (tr : List Emission) (u : Nat) : List Emission :=
  tr.filter (Emission.isSymUid u)

/-- `'.'.join(names[:-1])` for `names = export.split('.')`. -/
def destModuleOf (ex : String) : String :=
  pyJoin "." (pySplit ex ".").dropLast

/-- `names[-1]` for `names = export.split('.')`. -/
def destNameOf (ex : String) : String :=
  (pySplit ex ".").getLastD ""

/-- The emission the `_tf_api_names` branch makes for export path `ex`. -/
def mkSymEmission (uid prov : Nat) (sourceModule sourceName : String) (ex : String) : Emission :=
  Emission.symb uid prov (destModuleOf ex) sourceModule sourceName (destNameOf ex)

/-- State of the scan: the builder, the `visited_symbols` identity set,
plus - for specification purposes only - the trace of `add_import` calls
made so far and the index of the member being processed.  `err` is the
pending exception: once it is set every later step is a no-op, which is
how we render Python's exception propagation out of the loops. -/
structure ScanState where
  builder : Builder
  visited : List Nat
  trace : List Emission
  pos : Nat
  err : Option ApiError
deriving DecidableEq, Repr

def initScanState : ScanState :=
  { builder := { module_imports := [], seen_api_names := [] },
    visited := [], trace := [], pos := 0, err := none }

/-- One iteration of `for export in exports:` in the constants branch
(lines 139-143). -/
def stepConst (modName : String) (pos : Nat) (value : String) (st : ScanState) (ex : String) :
    ScanState :=
  if st.err.isSome then st
  else
    let st1 := { st with
      trace := st.trace ++ [Emission.const pos (destModuleOf ex) modName value (destNameOf ex)] }
    let p := add_import st1.builder (destModuleOf ex) modName value (destNameOf ex)
    { st1 with builder := p.1, err := p.2 }

/-- One iteration of `for export in attr._tf_api_names:` (lines 156-160). -/
def stepSymb (modName : String) (pos uid : Nat) (memberName : String) (st : ScanState)
    (ex : String) : ScanState :=
  if st.err.isSome then st
  else
    let st1 := { st with trace := st.trace ++ [mkSymEmission uid pos modName memberName ex] }
    let p := add_import st1.builder (destModuleOf ex) modName memberName (destNameOf ex)
    { st1 with builder := p.1, err := p.2 }

/-- The body of `for module_contents_name in dir(module):` (lines
131-160) for one member. -/
def processMember (modName : String) (m : Member) (st : ScanState) : ScanState :=
  if st.err.isSome then st
  else if m.attr.aid ∈ st.visited then st
  else if m.name = _API_CONSTANTS_ATTR then
    m.attr.constPairs.foldl
      (fun s pr => pr.1.foldl (fun s2 ex => stepConst modName st.pos pr.2 s2 ex) s) st
  else
    match m.attr.apiNames with
    | none => st
    | some l =>
      if m.attr.unwrappedId ∈ st.visited then st
      else
        l.foldl (fun s ex => stepSymb modName st.pos m.attr.unwrappedId m.name s ex)
          { st with visited := st.visited ++ [m.attr.unwrappedId] }

/-- The module filter (lines 124-129): only modules whose name contains
`'tensorflow.'` and that are not contrib modules are scanned. -/
def moduleFilter (mod : PyModule) : Bool :=
  pyContains mod.name "tensorflow." &&
    !(pyContains mod.name ".contrib." || pyEndsWith mod.name ".contrib")

/-- The members the two nested loops of lines 123-160 actually reach, in
iteration order: a `continue` on the module filter skips all of a
module's members, so the nest is the same as iterating the members of
the filtered module list. -/
def scannedMembers (mods : List PyModule) : List (String × Member) :=
  ((mods.filter moduleFilter).map (fun mod => mod.members.map (fun m => (mod.name, m)))).flatten

/-- Iterate `processMember` over the scanned members, counting positions. -/
def scanItems : List (String × Member) → ScanState → ScanState
  | [], st => st
  | (mn, m) :: rest, st => scanItems rest { processMember mn m st with pos := st.pos + 1 }

/-- The scanning phase of `get_api_imports` (lines 118-160), with the
ambient `sys.modules.values()` made an explicit argument. -/
def scanModules (mods : List PyModule) : ScanState :=
  scanItems (scannedMembers mods) initScanState

/-! ### Closure expansion (`get_api_imports`, lines 162-182) -/

/-- `add_import` lifted to a state that may carry a pending exception. -/
def addImportE (be : Builder × Option ApiError) (d s sn dn : String) :
    Builder × Option ApiError :=
  match be with
  | (b, some e) => (b, some e)
  | (b, none) => add_import b d s sn dn

/-- Iterations `submodule_index > 0` of the loop of lines 172-180:
`parent` is the current `parent_module`, `prevSeg` is
`module_split[submodule_index-1]`, and `parts` the remaining segments. -/
def expandLoop (be : Builder × Option ApiError) (parent prevSeg : String) :
    List String → Builder × Option ApiError
  | [] => be
  | seg :: rest =>
    let parent2 := if parent = "" then prevSeg else parent ++ "." ++ prevSeg
    expandLoop (addImportE be parent2 (_OUTPUT_MODULE ++ "." ++ parent2) seg seg) parent2 seg rest

/-- Lines 166-180 for one destination module name: skip the root, else
run the submodule loop (iteration `0` imports from `_OUTPUT_MODULE`
directly into the root namespace). -/
def expandModule (be : Builder × Option ApiError) (moduleName : String) :
    Builder × Option ApiError :=
  if moduleName = "" then be
  else
    match pySplit moduleName "." with
    | [] => be
    | seg :: rest => expandLoop (addImportE be "" _OUTPUT_MODULE seg seg) "" seg rest

/-- The `parent_module` value at each iteration of `expandLoop`. -/
def loopParents (parent prevSeg : String) : List String → List String
  | [] => []
  | seg :: rest =>
    let parent2 := if parent = "" then prevSeg else parent ++ "." ++ prevSeg
    parent2 :: loopParents parent2 seg rest

/-- `get_api_imports` (lines 108-182): scan, then import every
destination module in its parents.  `set(module_imports.keys())` is
iterated in key insertion order (the keys of our association list are
distinct, so this is one faithful enumeration of the Python set). -/
def get_api_imports (mods : List PyModule) : ScanState :=
  let st := scanModules mods
  let keys := st.builder.module_imports.map Prod.fst
  let be := keys.foldl expandModule (st.builder, st.err)
  { st with builder := be.1, err := be.2 }

/-! ### `create_api_files` (lines 185-237) -/

/-- Python `d[k] = v`: replace in place when the key exists (keeping its
position), else append. -/
def dictInsert (d : List (String × String)) (k v : String) : List (String × String) :=
  if d.any (fun p => p.1 = k) then d.map (fun p => if p.1 = k then (k, v) else p)
  else d ++ [(k, v)]

/-- Association-list lookup (`k in d` / `d[k]`). -/
def lookupStr (d : List (String × String)) (k : String) : Option String :=
  match d.find? (fun p => p.1 = k) with
  | some p => some p.2
  | none => none

/-- Lines 203-209: the destination module name an output file path
corresponds to - the directory part of the path segment after the last
`/api/`, with `/` turned into `.` and dots stripped at both ends.
On POSIX `output_file.replace(os.sep, '/')` is `output_file` itself. -/
def moduleNameOfPath (p : String) : String :=
  let chars := p.toList
  let after :=
    match rfindSub _API_DIR.toList chars with
    | some i => String.mk (chars.drop (i + _API_DIR.toList.length))
    | none => p
  let module_dir := dirname after
  pyStrip (pyReplace module_dir "/" ".") '.'

/-- Lines 196-210: build `module_name_to_file_path`, raising `ValueError`
at the first output file that is not under an `/api/` directory. -/
def buildPathMap (output_files : List String) : Except ApiError (List (String × String)) :=
  output_files.foldlM
    (fun d f =>
      if pyContains f _API_DIR = false then
        Except.error (ApiError.valueError
          ("Output files must be in api/ directory, found " ++ f ++ "."))
      else Except.ok (dictInsert d (moduleNameOfPath f) (normpath f)))
    []

/-- Line 225-226: the quoted expected path reported for a namespace
whose output file was not declared. -/
def missingFormat (moduleName : String) : String :=
  "\"api/" ++ pyReplace moduleName "." "/" ++ "/__init__.py\""

/-- The file-system effects and outcome of one `create_api_files` run:
the files touched by `open(file_path, 'a').close()` in order, the
`(path, content)` pairs written in order, and the exception that ended
the run, if any. -/
structure RunResult where
  createdFiles : List String
  writtenFiles : List (String × String)
  err : Option ApiError
deriving DecidableEq, Repr

/-- The write loop of lines 221-230: accumulates written files and the
missing-output list.  Namespaces with a declared file are written even
when other namespaces are missing; the aggregated error is raised only
after the loop (lines 232-237), with the missing list sorted. -/
def writeLoop (pathMap : List (String × String)) (imports : List (String × List String)) :
    List (String × String) × List String :=
  imports.foldl
    (fun acc kv =>
      match lookupStr pathMap kv.1 with
      | none => (acc.1, acc.2 ++ [missingFormat kv.1])
      | some path => (acc.1 ++ [(path, _GENERATED_FILE_HEADER ++ pyJoin "\n" kv.2)], acc.2))
    ([], [])

/-- `create_api_files` (lines 185-237), with the ambient module registry
explicit.  Files are touched before the scan runs (so a scan conflict
leaves them created but unwritten), and the aggregated missing-outputs
`ValueError` is raised only after every declared namespace is written. -/
def create_api_files (mods : List PyModule) (output_files : List String) : RunResult :=
  match buildPathMap output_files with
  | Except.error e => { createdFiles := [], writtenFiles := [], err := some e }
  | Except.ok pathMap =>
    let created := pathMap.map Prod.snd
    let st := get_api_imports mods
    match st.err with
    | some e => { createdFiles := created, writtenFiles := [], err := some e }
    | none =>
      let wm := writeLoop pathMap st.builder.module_imports
      { createdFiles := created, writtenFiles := wm.1,
        err := if wm.2 = [] then none else some (ApiError.missingOutputs (sortStrings wm.2)) }

/-! ### Specification views of the scan -/

/-- The `add_import` calls the constants branch (lines 137-144) makes for
one `_tf_api_constants` attribute value: one per declared export path,
with the constant value as the imported source name and the scanned
module as the source module. -/
def constEmissionsOf (pos : Nat) (modName : String) (pairs : List (List String × String)) :
    List Emission :=
  (pairs.map (fun pr =>
    pr.1.map (fun ex => Emission.const pos (destModuleOf ex) modName pr.2 (destNameOf ex)))).flatten

/-- Every emission's provenance index points at a scanned member that
explains it: constant emissions come from the member named
`_tf_api_constants`, symbol emissions from a member whose unwrapped
identity and name they carry. -/
def ProvOK (all : List (String × Member)) (tr : List Emission) : Prop :=
  ∀ e ∈ tr, ∃ mn m, all.get? e.provOf = some (mn, m) ∧
    (match e.uidOf with
     | some u => m.name ≠ _API_CONSTANTS_ATTR ∧ m.attr.unwrappedId = u ∧ m.attr.apiNames.isSome = true
     | none => m.name = _API_CONSTANTS_ATTR)

/-- The symbol emissions of identity `u` either are absent or all come
from one single member - the first member of identity `u` that the scan
did not skip - and list exactly that member's declared export paths. -/
def SymBlockOK (all : List (String × Member)) (tr : List Emission) (u : Nat) : Prop :=
  symEmissions tr u = [] ∨
  ∃ p mn m l, all.get? p = some (mn, m) ∧
    m.attr.unwrappedId = u ∧ m.name ≠ _API_CONSTANTS_ATTR ∧ m.attr.apiNames = some l ∧
    symEmissions tr u = l.map (mkSymEmission u p mn m.name) ∧
    (∀ q mn2 m2, all.get? q = some (mn2, m2) → m2.name ≠ _API_CONSTANTS_ATTR →
      m2.attr.aid = m2.attr.unwrappedId → m2.attr.unwrappedId = u →
      m2.attr.apiNames.isSome = true → p ≤ q)

/-- The scan-loop invariant. -/
def ScanInv (all : List (String × Member)) (st : ScanState) : Prop :=
  st.pos ≤ all.length ∧
  ProvOK all st.trace ∧
  (∀ u, u ∉ st.visited → symEmissions st.trace u = []) ∧
  (∀ u, u ∈ st.visited → SymBlockOK all st.trace u) ∧
  (∀ q mn m, q < st.pos → all.get? q = some (mn, m) → m.name ≠ _API_CONSTANTS_ATTR →
    m.attr.aid = m.attr.unwrappedId → m.attr.apiNames.isSome = true →
    m.attr.unwrappedId ∈ st.visited)



/-! ## Theorems -/

/-! ### Builder lemmas -/

theorem lookupList_eq_find? (mi : List (String × List String)) (k : String) :
    lookupList mi k = ((mi.find? (fun p => p.1 = k)).map Prod.snd).getD [] := by
  unfold lookupList
  cases mi.find? (fun p => p.1 = k) <;> rfl

theorem ensureKey_of_hasKey (mi : List (String × List String)) (k : String)
    (h : mi.any (fun p => p.1 = k) = true) : ensureKey mi k = mi := by
  simp [ensureKey, h]

theorem lookupList_ensureKey (mi : List (String × List String)) (k0 k : String) :
    lookupList (ensureKey mi k0) k = lookupList mi k := by
  unfold ensureKey
  split
  · rfl
  next h =>
    rw [lookupList_eq_find?, lookupList_eq_find?, List.find?_append]
    cases hf : mi.find? (fun p => p.1 = k) with
    | some p => simp
    | none =>
      simp only [Option.none_or]
      by_cases hk : k = k0
      · subst hk
        simp
      · simp [List.find?, hk, Ne.symm hk]

theorem hasKey_ensureKey (mi : List (String × List String)) (k : String) :
    (ensureKey mi k).any (fun p => p.1 = k) = true := by
  unfold ensureKey
  split
  next h => exact h
  next h => simp

theorem appendAt_eq_map (mi : List (String × List String)) (k s : String) :
    appendAt mi k s = mi.map (fun p => if p.1 = k then (p.1, p.2 ++ [s]) else p) := rfl

theorem find?_appendAt (mi : List (String × List String)) (k s k' : String) :
    (appendAt mi k s).find? (fun p => p.1 = k')
      = (mi.find? (fun p => p.1 = k')).map (fun p => if p.1 = k then (p.1, p.2 ++ [s]) else p) := by
  rw [appendAt_eq_map, List.find?_map]
  have hfg : ((fun p : String × List String => decide (p.1 = k')) ∘
      (fun p => if p.1 = k then (p.1, p.2 ++ [s]) else p))
      = (fun p : String × List String => decide (p.1 = k')) := by
    funext p
    by_cases h : p.1 = k <;> simp [Function.comp, h]
  rw [hfg]

theorem hasKey_appendAt (mi : List (String × List String)) (k s : String) (k' : String) :
    (appendAt mi k s).any (fun p => p.1 = k') = mi.any (fun p => p.1 = k') := by
  rw [appendAt_eq_map, List.any_map]
  have hfg : ((fun p : String × List String => decide (p.1 = k')) ∘
      (fun p => if p.1 = k then (p.1, p.2 ++ [s]) else p))
      = (fun p : String × List String => decide (p.1 = k')) := by
    funext p
    by_cases h : p.1 = k <;> simp [Function.comp, h]
  rw [hfg]

theorem lookupList_appendAt_ne (mi : List (String × List String)) (k s k' : String)
    (h : k' ≠ k) : lookupList (appendAt mi k s) k' = lookupList mi k' := by
  rw [lookupList_eq_find?, lookupList_eq_find?, find?_appendAt]
  cases hf : mi.find? (fun p => p.1 = k') with
  | none => rfl
  | some p =>
    have hp := List.find?_some hf
    simp only [decide_eq_true_eq] at hp
    have hpk : ¬ p.1 = k := by rw [hp]; exact h
    simp [hpk]

theorem lookupList_appendAt_self (mi : List (String × List String)) (k s : String)
    (h : mi.any (fun p => p.1 = k) = true) :
    lookupList (appendAt mi k s) k = lookupList mi k ++ [s] := by
  rw [lookupList_eq_find?, lookupList_eq_find?, find?_appendAt]
  cases hf : mi.find? (fun p => p.1 = k) with
  | none =>
    rcases List.any_eq_true.mp h with ⟨p, hp, hpk⟩
    have := List.find?_eq_none.mp hf p hp
    simp at this hpk
    exact absurd hpk this
  | some p =>
    have hp := List.find?_some hf
    simp only [decide_eq_true_eq] at hp
    simp [hp]

/-- `add_import` with its `let`s resolved, as nested conditionals. -/
theorem add_import_eq (b : Builder) (d s sn dn : String) :
    add_import b d s sn dn =
      (if format_import s sn dn ∈ lookupList (ensureKey b.module_imports d) d then
        ({ b with module_imports := ensureKey b.module_imports d }, none)
      else if fullApiName d dn ∈ b.seen_api_names then
        ({ b with module_imports := ensureKey b.module_imports d },
          some (ApiError.symbolExposedTwice (fullApiName d dn)))
      else
        ({ module_imports := appendAt (ensureKey b.module_imports d) d (format_import s sn dn),
           seen_api_names := b.seen_api_names ++ [fullApiName d dn] }, none)) := rfl

/-- On any outcome, `add_import` only ever grows a namespace's list. -/
theorem add_import_mono (b : Builder) (d s sn dn : String) :
    ∀ k x, x ∈ lookupList b.module_imports k →
      x ∈ lookupList (add_import b d s sn dn).1.module_imports k := by
  intro k x hx
  rw [add_import_eq]
  split_ifs with h1 h2
  · simpa [lookupList_ensureKey] using hx
  · simpa [lookupList_ensureKey] using hx
  · simp only
    by_cases hk : k = d
    · subst hk
      rw [lookupList_appendAt_self _ _ _ (hasKey_ensureKey _ _), lookupList_ensureKey]
      exact List.mem_append_left _ hx
    · rw [lookupList_appendAt_ne _ _ _ _ hk, lookupList_ensureKey]
      exact hx

/-- A successful `add_import` leaves its own rendered statement in the
destination namespace's list. -/
theorem add_import_self (b : Builder) (d s sn dn : String) (b' : Builder)
    (h : add_import b d s sn dn = (b', none)) :
    format_import s sn dn ∈ lookupList b'.module_imports d := by
  rw [add_import_eq] at h
  split_ifs at h with h1 h2
  · injection h with hb he
    subst hb
    simpa [lookupList_ensureKey] using h1
  · simp at h
  · injection h with hb he
    subst hb
    simp only
    rw [lookupList_appendAt_self _ _ _ (hasKey_ensureKey _ _)]
    exact List.mem_append_right _ (List.mem_singleton.mpr rfl)

/-- After any `add_import`, the destination key exists. -/
theorem add_import_hasKey (b : Builder) (d s sn dn : String) :
    ((add_import b d s sn dn).1.module_imports.any (fun p => p.1 = d)) = true := by
  rw [add_import_eq]
  split_ifs with h1 h2
  · exact hasKey_ensureKey _ _
  · exact hasKey_ensureKey _ _
  · simp only
    rw [hasKey_appendAt]
    exact hasKey_ensureKey _ _

/-! ### Claims about `format_import` and `add_import` -/

/-- C6: `format_import` renders exactly as specified for all string
inputs: with a non-empty source module it returns
`from <module> import <name>` when the source and destination names are
equal and `from <module> import <name> as <alias>` otherwise; with an
empty source module it returns `import <name>` when equal and
`import <name> as <alias>` otherwise. -/
theorem c6_format_import_fidelity (m x y : String) :
    (m ≠ "" → x = y → format_import m x y = "from " ++ m ++ " import " ++ x) ∧
    (m ≠ "" → x ≠ y → format_import m x y = "from " ++ m ++ " import " ++ x ++ " as " ++ y) ∧
    (m = "" → x = y → format_import m x y = "import " ++ x) ∧
    (m = "" → x ≠ y → format_import m x y = "import " ++ x ++ " as " ++ y) := by
  unfold format_import
  refine ⟨fun hm hxy => ?_, fun hm hxy => ?_, fun hm hxy => ?_, fun hm hxy => ?_⟩ <;>
    simp [hm, hxy]

/-- Witness for C6 at the concrete inputs of spec property P5. -/
theorem c6_format_import_fidelity_witness :
    format_import "m" "x" "x" = "from m import x" ∧
    format_import "m" "x" "y" = "from m import x as y" ∧
    format_import "" "x" "x" = "import x" ∧
    format_import "" "x" "y" = "import x as y" :=
  ⟨(c6_format_import_fidelity "m" "x" "x").1 (by decide) rfl,
   (c6_format_import_fidelity "m" "x" "y").2.1 (by decide) (by decide),
   (c6_format_import_fidelity "" "x" "x").2.2.1 rfl rfl,
   (c6_format_import_fidelity "" "x" "y").2.2.2 rfl (by decide)⟩

/-- C1: if the rendered import statement is not already present in the
destination namespace's list but the full export name is already
registered, `add_import` raises `SymbolExposedTwiceError` naming that
full export name. -/
theorem c1_add_import_conflict (b : Builder) (d s sn dn : String)
    (h1 : format_import s sn dn ∉ lookupList b.module_imports d)
    (h2 : fullApiName d dn ∈ b.seen_api_names) :
    (add_import b d s sn dn).2 = some (ApiError.symbolExposedTwice (fullApiName d dn)) := by
  rw [add_import_eq]
  rw [if_neg (by rw [lookupList_ensureKey]; exact h1), if_pos h2]

/-- Witness for C1: spec scenario P2 - after exporting `Foo` from
`mod_a` as root name `X`, exporting `Bar` from `mod_b` as `X` raises the
conflict error naming `X`. -/
theorem c1_add_import_conflict_witness :
    (add_import (add_import ⟨[], []⟩ "" "mod_a" "Foo" "X").1 "" "mod_b" "Bar" "X").2
      = some (ApiError.symbolExposedTwice "X") :=
  c1_add_import_conflict (add_import ⟨[], []⟩ "" "mod_a" "Foo" "X").1 "" "mod_b" "Bar" "X"
    (by decide) (by decide)

/-- C5: `add_import` is idempotent on identical statements - from a
builder with duplicate-free lists, a successful call leaves exactly one
copy of the rendered statement in the destination namespace's list,
keeps every list duplicate-free, and an identical second call returns
the builder unchanged. -/
theorem c5_add_import_idempotent (b : Builder) (d s sn dn : String) (b₁ : Builder)
    (hnd : NodupLists b) (h : add_import b d s sn dn = (b₁, none)) :
    NodupLists b₁ ∧
    add_import b₁ d s sn dn = (b₁, none) ∧
    (lookupList b₁.module_imports d).count (format_import s sn dn) = 1 := by
  have hself : format_import s sn dn ∈ lookupList b₁.module_imports d :=
    add_import_self _ _ _ _ _ _ h
  have hkey : (b₁.module_imports.any (fun p => p.1 = d)) = true := by
    have := add_import_hasKey b d s sn dn
    rw [h] at this
    exact this
  have hnd1 : NodupLists b₁ := by
    rw [add_import_eq] at h
    split_ifs at h with h1 h2
    · injection h with hb he
      subst hb
      intro k
      rw [lookupList_ensureKey]
      exact hnd k
    · simp at h
    · injection h with hb he
      subst hb
      intro k
      simp only
      by_cases hk : k = d
      · subst hk
        rw [lookupList_appendAt_self _ _ _ (hasKey_ensureKey _ _), lookupList_ensureKey]
        rw [lookupList_ensureKey] at h1
        simp [List.nodup_append, hnd k]
        intro hc
        exact absurd hc h1
      · rw [lookupList_appendAt_ne _ _ _ _ hk, lookupList_ensureKey]
        exact hnd k
  refine ⟨hnd1, ?_, List.count_eq_one_of_mem (hnd1 d) hself⟩
  rw [add_import_eq]
  rw [ensureKey_of_hasKey _ _ hkey]
  rw [if_pos hself]

/-- Witness for C5: a first add of `from m import x` into the root of an
empty builder, then the same call again, leaves the one entry. -/
theorem c5_add_import_idempotent_witness :
    add_import ⟨[("", ["from m import x"])], ["x"]⟩ "" "m" "x" "x"
        = (⟨[("", ["from m import x"])], ["x"]⟩, none) ∧
    (lookupList (Builder.module_imports ⟨[("", ["from m import x"])], ["x"]⟩) "").count
        (format_import "m" "x" "x") = 1 :=
  ⟨(c5_add_import_idempotent ⟨[], []⟩ "" "m" "x" "x" ⟨[("", ["from m import x"])], ["x"]⟩
      (fun k => by rw [show lookupList [] k = [] from rfl]; exact List.nodup_nil)
      (by decide)).2.1,
   (c5_add_import_idempotent ⟨[], []⟩ "" "m" "x" "x" ⟨[("", ["from m import x"])], ["x"]⟩
      (fun k => by rw [show lookupList [] k = [] from rfl]; exact List.nodup_nil)
      (by decide)).2.2⟩

/-- C8: when `add_import` raises `SymbolExposedTwiceError`, the builder's
observable contents are unchanged - no statement was appended anywhere,
no name was registered; at most the membership check created an empty
list entry for the destination key. -/
theorem c8_raise_leaves_builder (b : Builder) (d s sn dn : String) (b' : Builder) (e : ApiError)
    (h : add_import b d s sn dn = (b', some e)) :
    b'.seen_api_names = b.seen_api_names ∧
    b'.module_imports = ensureKey b.module_imports d ∧
    (∀ k, lookupList b'.module_imports k = lookupList b.module_imports k) := by
  rw [add_import_eq] at h
  split_ifs at h with h1 h2
  · simp at h
  · injection h with hb he
    subst hb
    exact ⟨rfl, rfl, fun k => lookupList_ensureKey _ _ _⟩
  · simp at h

/-- Witness for C8: the P2 conflict leaves the builder's contents as
they were (the root key already existed, so even `ensureKey` is the
identity here). -/
theorem c8_raise_leaves_builder_witness :
    Builder.seen_api_names ⟨[("", ["from mod_a import Foo as X"])], ["X"]⟩ = ["X"] ∧
    Builder.module_imports ⟨[("", ["from mod_a import Foo as X"])], ["X"]⟩
      = ensureKey [("", ["from mod_a import Foo as X"])] "" :=
  ⟨(c8_raise_leaves_builder ⟨[("", ["from mod_a import Foo as X"])], ["X"]⟩
      "" "mod_b" "Bar" "X" ⟨[("", ["from mod_a import Foo as X"])], ["X"]⟩
      (ApiError.symbolExposedTwice "X") (by decide)).1,
   (c8_raise_leaves_builder ⟨[("", ["from mod_a import Foo as X"])], ["X"]⟩
      "" "mod_b" "Bar" "X" ⟨[("", ["from mod_a import Foo as X"])], ["X"]⟩
      (ApiError.symbolExposedTwice "X") (by decide)).2.1⟩

/-! ### Claim about the module filter -/

/-- C9: the scan only reaches modules whose name contains the substring
`tensorflow.` (trailing dot included) and that are not contrib modules;
a module named exactly `tensorflow` is never scanned and contributes
nothing, while a name containing `tensorflow.` anywhere - prefix or not -
passes the filter and has all its members scanned. -/
theorem c9_module_filter (pre post : List PyModule) (mod : PyModule) (ms2 : List Member)
    (name : String) :
    (moduleFilter mod = false → scanModules (pre ++ mod :: post) = scanModules (pre ++ post)) ∧
    moduleFilter ⟨"tensorflow", mod.members⟩ = false ∧
    (pyContains name "tensorflow." = true → pyContains name ".contrib." = false →
      pyEndsWith name ".contrib" = false →
      moduleFilter ⟨name, ms2⟩ = true ∧
      scannedMembers [⟨name, ms2⟩] = ms2.map (fun m => (name, m))) := by
  refine ⟨fun h => ?_, by unfold moduleFilter; exact (by decide :
    (pyContains "tensorflow" "tensorflow." &&
      !(pyContains "tensorflow" ".contrib." || pyEndsWith "tensorflow" ".contrib")) = false),
    fun h1 h2 h3 => ?_⟩
  · unfold scanModules scannedMembers
    rw [List.filter_append, List.filter_append, List.filter_cons]
    simp [h]
  · have hf : moduleFilter ⟨name, ms2⟩ = true := by
      unfold moduleFilter
      simp [h1, h2, h3]
    refine ⟨hf, ?_⟩
    unfold scannedMembers
    rw [List.filter_cons]
    simp [hf]

/-- Witness for C9: the exact name `tensorflow` is filtered out and its
module contributes nothing, while `a.tensorflow.b` (substring not at the
start) passes the filter with all members scanned. -/
theorem c9_module_filter_witness :
    scanModules ([] ++ (⟨"tensorflow", []⟩ : PyModule) :: []) = scanModules ([] ++ []) ∧
    moduleFilter ⟨"a.tensorflow.b", []⟩ = true ∧
    scannedMembers [⟨"a.tensorflow.b", []⟩] = [] :=
  ⟨(c9_module_filter [] [] ⟨"tensorflow", []⟩ [] "x").1 (by decide),
   ((c9_module_filter [] [] ⟨"tensorflow", []⟩ [] "a.tensorflow.b").2.2
      (by decide) (by decide) (by decide)).1,
   ((c9_module_filter [] [] ⟨"tensorflow", []⟩ [] "a.tensorflow.b").2.2
      (by decide) (by decide) (by decide)).2⟩

/-! ### Scan step lemmas -/

theorem stepConst_frozen (mn : String) (pos : Nat) (v : String) (st : ScanState) (ex : String)
    (h : st.err.isSome = true) : stepConst mn pos v st ex = st := by
  unfold stepConst
  rw [if_pos h]

theorem stepSymb_frozen (mn : String) (pos u : Nat) (nm : String) (st : ScanState) (ex : String)
    (h : st.err.isSome = true) : stepSymb mn pos u nm st ex = st := by
  unfold stepSymb
  rw [if_pos h]

theorem foldl_frozen {α : Type} (f : ScanState → α → ScanState)
    (hf : ∀ s x, s.err.isSome = true → f s x = s) :
    ∀ (l : List α) (st : ScanState), st.err.isSome = true → l.foldl f st = st := by
  intro l
  induction l with
  | nil => intro st _; rfl
  | cons x xs ih =>
    intro st h
    rw [List.foldl_cons, hf st x h]
    exact ih st h

theorem stepConst_char (mn : String) (pos : Nat) (v : String) (st : ScanState) (ex : String)
    (h : st.err = none) :
    stepConst mn pos v st ex =
      { st with
        trace := st.trace ++ [Emission.const pos (destModuleOf ex) mn v (destNameOf ex)],
        builder := (add_import st.builder (destModuleOf ex) mn v (destNameOf ex)).1,
        err := (add_import st.builder (destModuleOf ex) mn v (destNameOf ex)).2 } := by
  unfold stepConst
  rw [if_neg (by rw [h]; simp)]

theorem stepSymb_char (mn : String) (pos u : Nat) (nm : String) (st : ScanState) (ex : String)
    (h : st.err = none) :
    stepSymb mn pos u nm st ex =
      { st with
        trace := st.trace ++ [mkSymEmission u pos mn nm ex],
        builder := (add_import st.builder (destModuleOf ex) mn nm (destNameOf ex)).1,
        err := (add_import st.builder (destModuleOf ex) mn nm (destNameOf ex)).2 } := by
  unfold stepSymb
  rw [if_neg (by rw [h]; simp)]

/-- A completed (error-free) export loop of the constants branch appends
exactly one constant emission per export path and touches neither the
visited set nor the position. -/
theorem constExports_fold (mn : String) (pos : Nat) (v : String) :
    ∀ (exs : List String) (st : ScanState), st.err = none →
      (exs.foldl (fun s2 ex => stepConst mn pos v s2 ex) st).err = none →
      (exs.foldl (fun s2 ex => stepConst mn pos v s2 ex) st).trace
        = st.trace ++ exs.map (fun ex => Emission.const pos (destModuleOf ex) mn v (destNameOf ex)) ∧
      (exs.foldl (fun s2 ex => stepConst mn pos v s2 ex) st).visited = st.visited ∧
      (exs.foldl (fun s2 ex => stepConst mn pos v s2 ex) st).pos = st.pos := by
  intro exs
  induction exs with
  | nil => intro st h _; simp
  | cons ex rest ih =>
    intro st h hok
    rw [List.foldl_cons] at hok ⊢
    have hc := stepConst_char mn pos v st ex h
    cases he : (stepConst mn pos v st ex).err with
    | some e =>
      have := foldl_frozen (fun s2 ex => stepConst mn pos v s2 ex)
        (fun s x hx => stepConst_frozen mn pos v s x hx) rest _ (by rw [he]; rfl)
      rw [this] at hok
      rw [he] at hok
      cases hok
    | none =>
      obtain ⟨ht, hv, hp⟩ := ih (stepConst mn pos v st ex) he hok
      refine ⟨?_, ?_, ?_⟩
      · rw [ht, hc]
        simp
      · rw [hv, hc]
      · rw [hp, hc]

/-- A completed export loop of the `_tf_api_names` branch appends exactly
one symbol emission per declared path and touches neither the visited
set nor the position. -/
theorem symbExports_fold (mn : String) (pos u : Nat) (nm : String) :
    ∀ (l : List String) (st : ScanState), st.err = none →
      (l.foldl (fun s ex => stepSymb mn pos u nm s ex) st).err = none →
      (l.foldl (fun s ex => stepSymb mn pos u nm s ex) st).trace
        = st.trace ++ l.map (mkSymEmission u pos mn nm) ∧
      (l.foldl (fun s ex => stepSymb mn pos u nm s ex) st).visited = st.visited ∧
      (l.foldl (fun s ex => stepSymb mn pos u nm s ex) st).pos = st.pos := by
  intro l
  induction l with
  | nil => intro st h _; simp
  | cons ex rest ih =>
    intro st h hok
    rw [List.foldl_cons] at hok ⊢
    have hc := stepSymb_char mn pos u nm st ex h
    cases he : (stepSymb mn pos u nm st ex).err with
    | some e =>
      have := foldl_frozen (fun s ex => stepSymb mn pos u nm s ex)
        (fun s x hx => stepSymb_frozen mn pos u nm s x hx) rest _ (by rw [he]; rfl)
      rw [this] at hok
      rw [he] at hok
      cases hok
    | none =>
      obtain ⟨ht, hv, hp⟩ := ih (stepSymb mn pos u nm st ex) he hok
      refine ⟨?_, ?_, ?_⟩
      · rw [ht, hc]
        simp
      · rw [hv, hc]
      · rw [hp, hc]

/-- A completed constants branch (all pairs) appends exactly
`constEmissionsOf` and leaves visited and position alone. -/
theorem constPairs_fold (mn : String) (pos : Nat) :
    ∀ (pairs : List (List String × String)) (st : ScanState), st.err = none →
      (pairs.foldl (fun s pr => pr.1.foldl (fun s2 ex => stepConst mn pos pr.2 s2 ex) s) st).err
        = none →
      (pairs.foldl (fun s pr => pr.1.foldl (fun s2 ex => stepConst mn pos pr.2 s2 ex) s) st).trace
        = st.trace ++ constEmissionsOf pos mn pairs ∧
      (pairs.foldl (fun s pr => pr.1.foldl (fun s2 ex => stepConst mn pos pr.2 s2 ex) s) st).visited
        = st.visited ∧
      (pairs.foldl (fun s pr => pr.1.foldl (fun s2 ex => stepConst mn pos pr.2 s2 ex) s) st).pos
        = st.pos := by
  intro pairs
  induction pairs with
  | nil => intro st h _; simp [constEmissionsOf]
  | cons pr rest ih =>
    intro st h hok
    rw [List.foldl_cons] at hok ⊢
    cases he : (pr.1.foldl (fun s2 ex => stepConst mn pos pr.2 s2 ex) st).err with
    | some e =>
      have hfz : ∀ (s : ScanState) (x : List String × String), s.err.isSome = true →
          x.1.foldl (fun s2 ex => stepConst mn pos x.2 s2 ex) s = s := by
        intro s x hx
        exact foldl_frozen (fun s2 ex => stepConst mn pos x.2 s2 ex)
          (fun s2 y hy => stepConst_frozen mn pos x.2 s2 y hy) x.1 s hx
      have := foldl_frozen _ hfz rest _ (by rw [he]; rfl)
      rw [this] at hok
      rw [he] at hok
      cases hok
    | none =>
      obtain ⟨ht1, hv1, hp1⟩ := constExports_fold mn pos pr.2 pr.1 st h he
      obtain ⟨ht2, hv2, hp2⟩ := ih _ he hok
      refine ⟨?_, ?_, ?_⟩
      · rw [ht2, ht1]
        simp [constEmissionsOf]
      · rw [hv2, hv1]
      · rw [hp2, hp1]

/-! ### processMember branch lemmas -/

theorem processMember_frozen (mn : String) (m : Member) (st : ScanState)
    (h : st.err.isSome = true) : processMember mn m st = st := by
  unfold processMember
  rw [if_pos h]

theorem processMember_skip_visited (mn : String) (m : Member) (st : ScanState)
    (h : st.err = none) (ha : m.attr.aid ∈ st.visited) : processMember mn m st = st := by
  unfold processMember
  rw [if_neg (by rw [h]; simp), if_pos ha]

theorem processMember_const (mn : String) (m : Member) (st : ScanState)
    (h : st.err = none) (ha : m.attr.aid ∉ st.visited) (hn : m.name = _API_CONSTANTS_ATTR) :
    processMember mn m st =
      m.attr.constPairs.foldl
        (fun s pr => pr.1.foldl (fun s2 ex => stepConst mn st.pos pr.2 s2 ex) s) st := by
  unfold processMember
  rw [if_neg (by rw [h]; simp), if_neg ha, if_pos hn]

theorem processMember_noNames (mn : String) (m : Member) (st : ScanState)
    (h : st.err = none) (ha : m.attr.aid ∉ st.visited) (hn : m.name ≠ _API_CONSTANTS_ATTR)
    (hap : m.attr.apiNames = none) : processMember mn m st = st := by
  unfold processMember
  rw [if_neg (by rw [h]; simp), if_neg ha, if_neg hn, hap]

theorem processMember_skip_uid (mn : String) (m : Member) (st : ScanState) (l : List String)
    (h : st.err = none) (ha : m.attr.aid ∉ st.visited) (hn : m.name ≠ _API_CONSTANTS_ATTR)
    (hap : m.attr.apiNames = some l) (hu : m.attr.unwrappedId ∈ st.visited) :
    processMember mn m st = st := by
  unfold processMember
  rw [if_neg (by rw [h]; simp), if_neg ha, if_neg hn, hap]
  simp only
  rw [if_pos hu]

theorem processMember_claim (mn : String) (m : Member) (st : ScanState) (l : List String)
    (h : st.err = none) (ha : m.attr.aid ∉ st.visited) (hn : m.name ≠ _API_CONSTANTS_ATTR)
    (hap : m.attr.apiNames = some l) (hu : m.attr.unwrappedId ∉ st.visited) :
    processMember mn m st =
      l.foldl (fun s ex => stepSymb mn st.pos m.attr.unwrappedId m.name s ex)
        { st with visited := st.visited ++ [m.attr.unwrappedId] } := by
  unfold processMember
  rw [if_neg (by rw [h]; simp), if_neg ha, if_neg hn, hap]
  simp only
  rw [if_neg hu]

/-- Whatever happens (including a mid-loop raise), the symbol-export loop
only ever appends symbol emissions of its own identity. -/
theorem symbExports_fold_weak (mn : String) (pos u : Nat) (nm : String) :
    ∀ (l : List String) (st : ScanState),
      ∃ tr2, (l.foldl (fun s ex => stepSymb mn pos u nm s ex) st).trace = st.trace ++ tr2 ∧
        ∀ e ∈ tr2, Emission.uidOf e = some u ∧ Emission.provOf e = pos := by
  intro l
  induction l with
  | nil => intro st; exact ⟨[], by simp, by simp⟩
  | cons ex rest ih =>
    intro st
    rw [List.foldl_cons]
    cases he : st.err with
    | some e =>
      rw [stepSymb_frozen mn pos u nm st ex (by rw [he]; rfl)]
      exact ih st
    | none =>
      obtain ⟨tr2, ht, hall⟩ := ih (stepSymb mn pos u nm st ex)
      refine ⟨[mkSymEmission u pos mn nm ex] ++ tr2, ?_, ?_⟩
      · rw [ht, stepSymb_char mn pos u nm st ex he]
        simp
      · intro e' he'
        rcases List.mem_append.mp he' with h1 | h1
        · rw [List.mem_singleton.mp h1]
          exact ⟨rfl, rfl⟩
        · exact hall e' h1

/-! ### Claim C3 (corrected): constants vs symbol scanning -/

/-- C3 (amended): constant handling and symbol scanning are mutually
exclusive per *member*, not per module.  The member named
`_tf_api_constants` is handled by the constants branch - one emission
per declared constant path, with the constant value as source symbol
name and the current module as source module - and is not symbol-scanned
(the identity set is untouched); any *other* member contributes no
constant emission, and when it carries export names and a fresh identity
its full path list is symbol-emitted, even when its module also carries
the constants attribute. -/
theorem c3_constants_per_member (mn : String) (m : Member) (st : ScanState)
    (h : st.err = none) (ha : m.attr.aid ∉ st.visited) :
    (m.name = _API_CONSTANTS_ATTR → (processMember mn m st).err = none →
      (processMember mn m st).trace = st.trace ++ constEmissionsOf st.pos mn m.attr.constPairs ∧
      (processMember mn m st).visited = st.visited) ∧
    (m.name ≠ _API_CONSTANTS_ATTR →
      ∀ e ∈ (processMember mn m st).trace, Emission.uidOf e = none → e ∈ st.trace) ∧
    (∀ l, m.name ≠ _API_CONSTANTS_ATTR → m.attr.apiNames = some l →
      m.attr.unwrappedId ∉ st.visited → (processMember mn m st).err = none →
      (processMember mn m st).trace
        = st.trace ++ l.map (mkSymEmission m.attr.unwrappedId st.pos mn m.name) ∧
      (processMember mn m st).visited = st.visited ++ [m.attr.unwrappedId]) := by
  refine ⟨fun hn hok => ?_, fun hn => ?_, fun l hn hap hu hok => ?_⟩
  · rw [processMember_const mn m st h ha hn] at hok ⊢
    obtain ⟨ht, hv, _⟩ := constPairs_fold mn st.pos m.attr.constPairs st h hok
    exact ⟨ht, hv⟩
  · cases hap : m.attr.apiNames with
    | none =>
      rw [processMember_noNames mn m st h ha hn hap]
      intro e he _
      exact he
    | some l =>
      by_cases hu : m.attr.unwrappedId ∈ st.visited
      · rw [processMember_skip_uid mn m st l h ha hn hap hu]
        intro e he _
        exact he
      · rw [processMember_claim mn m st l h ha hn hap hu]
        obtain ⟨tr2, ht, hall⟩ := symbExports_fold_weak mn st.pos m.attr.unwrappedId m.name l
          { st with visited := st.visited ++ [m.attr.unwrappedId] }
        rw [ht]
        intro e he hnone
        rcases List.mem_append.mp he with h1 | h1
        · exact h1
        · have := (hall e h1).1
          rw [hnone] at this
          cases this
  · rw [processMember_claim mn m st l h ha hn hap hu] at hok ⊢
    obtain ⟨ht, hv, _⟩ := symbExports_fold mn st.pos m.attr.unwrappedId m.name l
      { st with visited := st.visited ++ [m.attr.unwrappedId] } (by exact h) hok
    exact ⟨ht, hv⟩

/-- Counterexample for C3 as stated: the module
`tensorflow.python.m` below carries the constant-export attribute (its
first member is `_tf_api_constants`, exporting `BAR`), and nevertheless
its member `Foo` is still unwrapped, checked for the symbol-export
attribute, and emitted into namespace `a` - so it is false that only
modules *without* the attribute have their members symbol-scanned. -/
theorem c3_counterexample :
    (PyModule.members ⟨"tensorflow.python.m",
        [⟨"_tf_api_constants", ⟨1, [(["BAR"], "7")], 1, none⟩⟩,
         ⟨"Foo", ⟨2, [], 2, some ["a.Foo"]⟩⟩]⟩).any
      (fun m => m.name = _API_CONSTANTS_ATTR) = true ∧
    "from tensorflow.python.m import Foo" ∈
      lookupList (scanModules [⟨"tensorflow.python.m",
        [⟨"_tf_api_constants", ⟨1, [(["BAR"], "7")], 1, none⟩⟩,
         ⟨"Foo", ⟨2, [], 2, some ["a.Foo"]⟩⟩]⟩]).builder.module_imports "a" := by
  refine ⟨by decide, by decide⟩

/-- Witness for C3 (amended) at a concrete constants member: the
`_tf_api_constants` member of `tensorflow.python.m` emits exactly its
declared constant paths and leaves the identity set untouched. -/
theorem c3_constants_per_member_witness :
    (processMember "tensorflow.python.m"
        ⟨"_tf_api_constants", ⟨1, [(["BAR"], "7")], 1, none⟩⟩ initScanState).trace
      = initScanState.trace
        ++ constEmissionsOf initScanState.pos "tensorflow.python.m" [(["BAR"], "7")] ∧
    (processMember "tensorflow.python.m"
        ⟨"_tf_api_constants", ⟨1, [(["BAR"], "7")], 1, none⟩⟩ initScanState).visited
      = initScanState.visited :=
  (c3_constants_per_member "tensorflow.python.m"
      ⟨"_tf_api_constants", ⟨1, [(["BAR"], "7")], 1, none⟩⟩ initScanState rfl
      (by decide)).1 rfl (by decide)

/-! ### Emission utility lemmas -/

theorem isSymUid_iff (u : Nat) (e : Emission) :
    Emission.isSymUid u e = true ↔ Emission.uidOf e = some u := by
  cases e <;> simp [Emission.isSymUid, Emission.uidOf]

theorem symEmissions_append (a b : List Emission) (u : Nat) :
    symEmissions (a ++ b) u = symEmissions a u ++ symEmissions b u :=
  List.filter_append a b

theorem symEmissions_of_none (tr : List Emission)
    (hall : ∀ e ∈ tr, Emission.uidOf e = none) (u : Nat) : symEmissions tr u = [] := by
  unfold symEmissions
  rw [List.filter_eq_nil_iff]
  intro e he hcon
  have := (isSymUid_iff u e).mp hcon
  rw [hall e he] at this
  cases this

theorem provOf_mkSym (u p : Nat) (mn nm ex : String) :
    (mkSymEmission u p mn nm ex).provOf = p := rfl

theorem uidOf_mkSym (u p : Nat) (mn nm ex : String) :
    (mkSymEmission u p mn nm ex).uidOf = some u := rfl

theorem symEmissions_block_self (u p : Nat) (mn nm : String) (l : List String) :
    symEmissions (l.map (mkSymEmission u p mn nm)) u = l.map (mkSymEmission u p mn nm) := by
  unfold symEmissions
  rw [List.filter_eq_self]
  intro e he
  obtain ⟨ex, _, rfl⟩ := List.mem_map.mp he
  exact (isSymUid_iff u _).mpr (uidOf_mkSym u p mn nm ex)

theorem symEmissions_block_ne (u u' p : Nat) (mn nm : String) (l : List String)
    (h : u' ≠ u) : symEmissions (l.map (mkSymEmission u p mn nm)) u' = [] := by
  unfold symEmissions
  rw [List.filter_eq_nil_iff]
  intro e he hcon
  obtain ⟨ex, _, rfl⟩ := List.mem_map.mp he
  have := (isSymUid_iff u' _).mp hcon
  rw [uidOf_mkSym] at this
  exact h (Option.some.inj this).symm

theorem mem_block_provOf (u p : Nat) (mn nm : String) (l : List String) (e : Emission)
    (he : e ∈ l.map (mkSymEmission u p mn nm)) :
    Emission.provOf e = p ∧ Emission.uidOf e = some u := by
  obtain ⟨ex, _, rfl⟩ := List.mem_map.mp he
  exact ⟨rfl, rfl⟩

theorem mem_constEmissions (pos : Nat) (mn : String) (pairs : List (List String × String))
    (e : Emission) (he : e ∈ constEmissionsOf pos mn pairs) :
    Emission.provOf e = pos ∧ Emission.uidOf e = none := by
  unfold constEmissionsOf at he
  obtain ⟨l2, hl2, hel⟩ := List.mem_flatten.mp he
  obtain ⟨pr, _, rfl⟩ := List.mem_map.mp hl2
  obtain ⟨ex, _, rfl⟩ := List.mem_map.mp hel
  exact ⟨rfl, rfl⟩

theorem SymBlockOK_congr (all : List (String × Member)) (tr1 tr2 : List Emission) (u : Nat)
    (h : symEmissions tr2 u = symEmissions tr1 u) :
    SymBlockOK all tr1 u → SymBlockOK all tr2 u := by
  intro hs
  unfold SymBlockOK at hs ⊢
  rw [h]
  exact hs

/-! ### Scan invariant -/

theorem scanItems_frozen :
    ∀ (items : List (String × Member)) (st : ScanState), st.err.isSome = true →
      scanItems items st = { st with pos := st.pos + items.length } := by
  intro items
  induction items with
  | nil =>
    intro st h
    show st = { st with pos := st.pos + 0 }
    simp
  | cons it rest ih =>
    intro st h
    obtain ⟨mn, m⟩ := it
    show scanItems rest { processMember mn m st with pos := st.pos + 1 }
      = { st with pos := st.pos + (rest.length + 1) }
    rw [processMember_frozen mn m st h]
    rw [ih { st with pos := st.pos + 1 } h]
    have : st.pos + 1 + rest.length = st.pos + (rest.length + 1) := by omega
    rw [this]

theorem scanInv_init (all : List (String × Member)) : ScanInv all initScanState := by
  refine ⟨Nat.zero_le _, ?_, ?_, ?_, ?_⟩
  · intro e he
    cases he
  · intro u _
    rfl
  · intro u hu
    cases hu
  · intro q mn m hq _ _ _ _
    cases hq

/-- The invariant is preserved by one error-free member step. -/
theorem processMember_inv (all : List (String × Member)) (mn : String) (m : Member)
    (st : ScanState) (hinv : ScanInv all st) (herr : st.err = none)
    (hget : all.get? st.pos = some (mn, m))
    (hok : (processMember mn m st).err = none) :
    ScanInv all { processMember mn m st with pos := st.pos + 1 } := by
  obtain ⟨hlen, hprov, hA, hB, hD⟩ := hinv
  have hpos : st.pos < all.length := by
    rcases List.get?_eq_some.mp hget with ⟨h, _⟩
    exact h
  have hpos1 : st.pos + 1 ≤ all.length := hpos
  by_cases ha : m.attr.aid ∈ st.visited
  · -- pre-unwrap identity already visited: the member is skipped.
    rw [processMember_skip_visited mn m st herr ha]
    refine ⟨hpos1, hprov, hA, hB, ?_⟩
    intro q mn2 m2 hq hget2 hn2 haid hsome
    rcases Nat.lt_succ_iff_lt_or_eq.mp hq with hlt | heq
    · exact hD q mn2 m2 hlt hget2 hn2 haid hsome
    · subst heq
      rw [hget] at hget2
      obtain ⟨h1, h2⟩ := Prod.mk.injEq .. ▸ Option.some.inj hget2
      subst h2
      rw [← haid]
      exact ha
  · by_cases hn : m.name = _API_CONSTANTS_ATTR
    · -- constants branch
      have hpm := processMember_const mn m st herr ha hn
      rw [hpm] at hok ⊢
      obtain ⟨ht, hv, _⟩ := constPairs_fold mn st.pos m.attr.constPairs st herr hok
      refine ⟨hpos1, ?_, ?_, ?_, ?_⟩
      · -- ProvOK
        intro e he
        rw [ht] at he
        rcases List.mem_append.mp he with h1 | h1
        · exact hprov e h1
        · obtain ⟨hep, heu⟩ := mem_constEmissions st.pos mn m.attr.constPairs e h1
          refine ⟨mn, m, ?_, ?_⟩
          · rw [hep]
            exact hget
          · rw [heu]
            exact hn
      · intro u hu
        rw [hv] at hu
        rw [ht, symEmissions_append, hA u hu,
          symEmissions_of_none _ (fun e he => (mem_constEmissions _ _ _ e he).2) u]
        rfl
      · intro u hu
        rw [hv] at hu
        refine SymBlockOK_congr all st.trace _ u ?_ (hB u hu)
        rw [ht, symEmissions_append,
          symEmissions_of_none _ (fun e he => (mem_constEmissions _ _ _ e he).2) u,
          List.append_nil]
      · intro q mn2 m2 hq hget2 hn2 haid hsome
        rw [hv]
        rcases Nat.lt_succ_iff_lt_or_eq.mp hq with hlt | heq
        · exact hD q mn2 m2 hlt hget2 hn2 haid hsome
        · subst heq
          rw [hget] at hget2
          obtain ⟨h1, h2⟩ := Prod.mk.injEq .. ▸ Option.some.inj hget2
          subst h2
          exact absurd hn hn2
    · cases hap : m.attr.apiNames with
      | none =>
        rw [processMember_noNames mn m st herr ha hn hap]
        refine ⟨hpos1, hprov, hA, hB, ?_⟩
        intro q mn2 m2 hq hget2 hn2 haid hsome
        rcases Nat.lt_succ_iff_lt_or_eq.mp hq with hlt | heq
        · exact hD q mn2 m2 hlt hget2 hn2 haid hsome
        · subst heq
          rw [hget] at hget2
          obtain ⟨h1, h2⟩ := Prod.mk.injEq .. ▸ Option.some.inj hget2
          subst h2
          rw [hap] at hsome
          cases hsome
      | some l =>
        by_cases hu : m.attr.unwrappedId ∈ st.visited
        · rw [processMember_skip_uid mn m st l herr ha hn hap hu]
          refine ⟨hpos1, hprov, hA, hB, ?_⟩
          intro q mn2 m2 hq hget2 hn2 haid hsome
          rcases Nat.lt_succ_iff_lt_or_eq.mp hq with hlt | heq
          · exact hD q mn2 m2 hlt hget2 hn2 haid hsome
          · subst heq
            rw [hget] at hget2
            obtain ⟨h1, h2⟩ := Prod.mk.injEq .. ▸ Option.some.inj hget2
            subst h2
            exact hu
        · -- the member claims its identity and emits its full path list
          have hpm := processMember_claim mn m st l herr ha hn hap hu
          rw [hpm] at hok ⊢
          obtain ⟨ht, hv, _⟩ := symbExports_fold mn st.pos m.attr.unwrappedId m.name l
            { st with visited := st.visited ++ [m.attr.unwrappedId] } (by exact herr) hok
          have ht' : (l.foldl
              (fun s ex => stepSymb mn st.pos m.attr.unwrappedId m.name s ex)
              { st with visited := st.visited ++ [m.attr.unwrappedId] }).trace
              = st.trace ++ l.map (mkSymEmission m.attr.unwrappedId st.pos mn m.name) := ht
          have hv' : (l.foldl
              (fun s ex => stepSymb mn st.pos m.attr.unwrappedId m.name s ex)
              { st with visited := st.visited ++ [m.attr.unwrappedId] }).visited
              = st.visited ++ [m.attr.unwrappedId] := hv
          refine ⟨hpos1, ?_, ?_, ?_, ?_⟩
          · intro e he
            rw [ht'] at he
            rcases List.mem_append.mp he with h1 | h1
            · exact hprov e h1
            · obtain ⟨hep, heu⟩ := mem_block_provOf _ _ _ _ _ e h1
              refine ⟨mn, m, ?_, ?_⟩
              · rw [hep]
                exact hget
              · rw [heu]
                exact ⟨hn, rfl, by rw [hap]; rfl⟩
          · intro u' hu'
            rw [hv'] at hu'
            have hu1 : u' ∉ st.visited := fun hc => hu' (List.mem_append_left _ hc)
            have hu2 : u' ≠ m.attr.unwrappedId := by
              intro hc
              exact hu' (List.mem_append_right _ (by rw [hc]; exact List.mem_singleton.mpr rfl))
            rw [ht', symEmissions_append, hA u' hu1,
              symEmissions_block_ne _ _ _ _ _ _ hu2]
            rfl
          · intro u' hu'
            rw [hv'] at hu'
            rcases List.mem_append.mp hu' with h1 | h1
            · have hne : u' ≠ m.attr.unwrappedId := by
                intro hc
                rw [hc] at h1
                exact hu h1
              refine SymBlockOK_congr all st.trace _ u' ?_ (hB u' h1)
              rw [ht', symEmissions_append, symEmissions_block_ne _ _ _ _ _ _ hne,
                List.append_nil]
            · have heq : u' = m.attr.unwrappedId := List.mem_singleton.mp h1
              subst heq
              right
              refine ⟨st.pos, mn, m, l, hget, rfl, hn, hap, ?_, ?_⟩
              · rw [ht', symEmissions_append, hA _ hu, symEmissions_block_self]
                rfl
              · intro q mn2 m2 hget2 hn2 haid2 huid2 hsome2
                by_contra hql
                have hql' : q < st.pos := Nat.lt_of_not_le hql
                have := hD q mn2 m2 hql' hget2 hn2 haid2 hsome2
                rw [huid2] at this
                exact hu this
          · intro q mn2 m2 hq hget2 hn2 haid hsome
            rw [hv']
            rcases Nat.lt_succ_iff_lt_or_eq.mp hq with hlt | heq
            · exact List.mem_append_left _ (hD q mn2 m2 hlt hget2 hn2 haid hsome)
            · subst heq
              rw [hget] at hget2
              obtain ⟨h1, h2⟩ := Prod.mk.injEq .. ▸ Option.some.inj hget2
              subst h2
              exact List.mem_append_right _ (List.mem_singleton.mpr rfl)

/-- The invariant holds after scanning the remaining members, provided
no exception was raised. -/
theorem scanItems_inv (all : List (String × Member)) :
    ∀ (items : List (String × Member)) (st : ScanState),
      ScanInv all st → st.err = none → all.drop st.pos = items →
      (scanItems items st).err = none →
      ScanInv all (scanItems items st) := by
  intro items
  induction items with
  | nil =>
    intro st hinv _ _ _
    exact hinv
  | cons it rest ih =>
    intro st hinv herr hdrop hok
    obtain ⟨mn, m⟩ := it
    have hget : all.get? st.pos = some (mn, m) := by
      have h0 : (all.drop st.pos).get? 0 = some (mn, m) := by
        rw [hdrop]
        rfl
      rw [List.get?_drop] at h0
      simpa using h0
    rw [show scanItems ((mn, m) :: rest) st
        = scanItems rest { processMember mn m st with pos := st.pos + 1 } from rfl] at hok ⊢
    have herr' : ({ processMember mn m st with pos := st.pos + 1 } : ScanState).err = none := by
      cases hco : (processMember mn m st).err with
      | none => rfl
      | some e =>
        have hsome : ({ processMember mn m st with pos := st.pos + 1 } : ScanState).err.isSome
            = true := by
          show (processMember mn m st).err.isSome = true
          rw [hco]
          rfl
        rw [scanItems_frozen rest _ hsome] at hok
        have : ({ processMember mn m st with pos := st.pos + 1 } : ScanState).err = none := hok
        rw [show ({ processMember mn m st with pos := st.pos + 1 } : ScanState).err
            = (processMember mn m st).err from rfl, hco] at this
        cases this
    have hinv' := processMember_inv all mn m st hinv herr hget
      (show (processMember mn m st).err = none from herr')
    have hdrop' : all.drop ({ processMember mn m st with pos := st.pos + 1 } : ScanState).pos
        = rest := by
      show all.drop (st.pos + 1) = rest
      rw [← List.tail_drop, hdrop]
      rfl
    exact ih { processMember mn m st with pos := st.pos + 1 } hinv' herr' hdrop' hok

/-! ### Claim C4: identity-set deduplication -/

/-- C4: for every unwrapped symbol identity, only one scanned member
produces symbol emissions: when any exist, they are exactly that
member's declared export path list - one emission per declared path, in
order - the member is the earliest direct (unwrapped) carrier of that
identity with export names, and every other member carrying that
identity (in particular every later encounter through another member or
module) produces no emission at all. -/
theorem c4_identity_dedup (mods : List PyModule) (u : Nat)
    (hok : (scanModules mods).err = none) :
    symEmissions (scanModules mods).trace u = [] ∨
    ∃ p mn m l, (scannedMembers mods).get? p = some (mn, m) ∧
      m.attr.unwrappedId = u ∧ m.name ≠ _API_CONSTANTS_ATTR ∧ m.attr.apiNames = some l ∧
      symEmissions (scanModules mods).trace u = l.map (mkSymEmission u p mn m.name) ∧
      (∀ q mn2 m2, (scannedMembers mods).get? q = some (mn2, m2) →
        m2.name ≠ _API_CONSTANTS_ATTR → m2.attr.aid = m2.attr.unwrappedId →
        m2.attr.unwrappedId = u → m2.attr.apiNames.isSome = true → p ≤ q) ∧
      (∀ q mn2 m2, (scannedMembers mods).get? q = some (mn2, m2) →
        m2.name ≠ _API_CONSTANTS_ATTR → m2.attr.unwrappedId = u → q ≠ p →
        ∀ e ∈ (scanModules mods).trace, Emission.provOf e ≠ q) := by
  have hinv := scanItems_inv (scannedMembers mods) (scannedMembers mods) initScanState
    (scanInv_init _) rfl (by rfl) hok
  obtain ⟨hlen, hprov, hA, hB, hD⟩ := hinv
  by_cases hu : u ∈ (scanModules mods).visited
  · rcases hB u hu with h0 | ⟨p, mn, m, l, hget, huid, hn, hap, heq, hfirst⟩
    · left
      exact h0
    · right
      subst huid
      refine ⟨p, mn, m, l, hget, rfl, hn, hap, heq, hfirst, ?_⟩
      intro q mn2 m2 hget2 hn2 huid2 hqp e he hprove
      obtain ⟨mn3, m3, hget3, hmatch⟩ := hprov e he
      rw [hprove] at hget3
      rw [hget3] at hget2
      obtain ⟨h1, h2⟩ := Prod.mk.injEq .. ▸ Option.some.inj hget2
      subst h2
      cases e with
      | const p' dm sm v dn =>
        exact hn2 hmatch
      | symb u' p' dm sm sn dn =>
        obtain ⟨_, hm3u, _⟩ := hmatch
        have hu'u : u' = m.attr.unwrappedId := by
          rw [← hm3u, huid2]
        have hesym : Emission.symb u' p' dm sm sn dn
            ∈ symEmissions (scanItems (scannedMembers mods) initScanState).trace
                m.attr.unwrappedId := by
          refine List.mem_filter.mpr ⟨he, ?_⟩
          rw [isSymUid_iff]
          show some u' = some m.attr.unwrappedId
          rw [hu'u]
        rw [heq] at hesym
        have hpp := (mem_block_provOf _ _ _ _ _ _ hesym).1
        have hpq : (Emission.symb u' p' dm sm sn dn).provOf = q := hprove
        exact hqp (hpq.symm.trans hpp)
  · left
    exact hA u hu

/-- Witness for C4 on a concrete scan in which one underlying object
(identity `5`) is reachable through two member names, declaring two
export paths: the theorem applies, so the two paths are emitted by a
single member only. -/
theorem c4_identity_dedup_witness :
    symEmissions (scanModules [⟨"tensorflow.python.m",
        [⟨"Foo", ⟨5, [], 5, some ["a.Foo", "b.Foo"]⟩⟩,
         ⟨"Foo2", ⟨5, [], 5, some ["a.Foo", "b.Foo"]⟩⟩]⟩]).trace 5 = [] ∨
    ∃ p mn m l, (scannedMembers [⟨"tensorflow.python.m",
        [⟨"Foo", ⟨5, [], 5, some ["a.Foo", "b.Foo"]⟩⟩,
         ⟨"Foo2", ⟨5, [], 5, some ["a.Foo", "b.Foo"]⟩⟩]⟩]).get? p = some (mn, m) ∧
      m.attr.unwrappedId = 5 ∧ m.name ≠ _API_CONSTANTS_ATTR ∧ m.attr.apiNames = some l ∧
      symEmissions (scanModules [⟨"tensorflow.python.m",
          [⟨"Foo", ⟨5, [], 5, some ["a.Foo", "b.Foo"]⟩⟩,
           ⟨"Foo2", ⟨5, [], 5, some ["a.Foo", "b.Foo"]⟩⟩]⟩]).trace 5
        = l.map (mkSymEmission 5 p mn m.name) ∧
      (∀ q mn2 m2, (scannedMembers [⟨"tensorflow.python.m",
          [⟨"Foo", ⟨5, [], 5, some ["a.Foo", "b.Foo"]⟩⟩,
           ⟨"Foo2", ⟨5, [], 5, some ["a.Foo", "b.Foo"]⟩⟩]⟩]).get? q = some (mn2, m2) →
        m2.name ≠ _API_CONSTANTS_ATTR → m2.attr.aid = m2.attr.unwrappedId →
        m2.attr.unwrappedId = 5 → m2.attr.apiNames.isSome = true → p ≤ q) ∧
      (∀ q mn2 m2, (scannedMembers [⟨"tensorflow.python.m",
          [⟨"Foo", ⟨5, [], 5, some ["a.Foo", "b.Foo"]⟩⟩,
           ⟨"Foo2", ⟨5, [], 5, some ["a.Foo", "b.Foo"]⟩⟩]⟩]).get? q = some (mn2, m2) →
        m2.name ≠ _API_CONSTANTS_ATTR → m2.attr.unwrappedId = 5 → q ≠ p →
        ∀ e ∈ (scanModules [⟨"tensorflow.python.m",
            [⟨"Foo", ⟨5, [], 5, some ["a.Foo", "b.Foo"]⟩⟩,
             ⟨"Foo2", ⟨5, [], 5, some ["a.Foo", "b.Foo"]⟩⟩]⟩]).trace,
          Emission.provOf e ≠ q) :=
  c4_identity_dedup [⟨"tensorflow.python.m",
      [⟨"Foo", ⟨5, [], 5, some ["a.Foo", "b.Foo"]⟩⟩,
       ⟨"Foo2", ⟨5, [], 5, some ["a.Foo", "b.Foo"]⟩⟩]⟩] 5 (by decide)

/-! ### Closure expansion lemmas -/

theorem append_ne_empty (a b : String) (h : a ≠ "") : a ++ b ≠ "" := by
  intro hc
  apply h
  have hd : (a ++ b).data = [] := by rw [hc]
  rw [String.data_append] at hd
  have ha : a.data = [] := (List.append_eq_nil.mp hd).1
  cases a with
  | mk d =>
    simp at ha
    rw [ha]

theorem pyJoin_ne_empty (l : List String) (hall : ∀ s ∈ l, s ≠ "") (hne : l ≠ []) :
    pyJoin "." l ≠ "" := by
  match l with
  | [] => exact absurd rfl hne
  | [x] => exact hall x (List.mem_singleton.mpr rfl)
  | x :: y :: rest =>
    show x ++ "." ++ pyJoin "." (y :: rest) ≠ ""
    exact append_ne_empty _ _ (append_ne_empty _ _ (hall x (by simp)))

theorem pyJoin_append_singleton (pre : List String) (x : String) :
    pyJoin "." (pre ++ [x]) = if pre = [] then x else pyJoin "." pre ++ "." ++ x := by
  match pre with
  | [] => simp [pyJoin]
  | [a] => simp [pyJoin]
  | a :: b :: rest =>
    rw [if_neg (by simp)]
    show a ++ "." ++ pyJoin "." ((b :: rest) ++ [x]) = (a ++ "." ++ pyJoin "." (b :: rest)) ++ "." ++ x
    rw [pyJoin_append_singleton (b :: rest) x, if_neg (by simp)]
    simp [String.append_assoc]

theorem addImportE_frozen (be : Builder × Option ApiError) (d s sn dn : String)
    (h : be.2.isSome = true) : addImportE be d s sn dn = be := by
  obtain ⟨b, e⟩ := be
  cases e with
  | none => cases h
  | some e => rfl

theorem addImportE_mono (be : Builder × Option ApiError) (d s sn dn : String) :
    ∀ k x, x ∈ lookupList be.1.module_imports k →
      x ∈ lookupList (addImportE be d s sn dn).1.module_imports k := by
  intro k x hx
  obtain ⟨b, e⟩ := be
  cases e with
  | none => exact add_import_mono b d s sn dn k x hx
  | some e => exact hx

theorem expandLoop_frozen :
    ∀ (parts : List String) (be : Builder × Option ApiError) (parent prev : String),
      be.2.isSome = true → expandLoop be parent prev parts = be := by
  intro parts
  induction parts with
  | nil => intro be parent prev _; rfl
  | cons seg rest ih =>
    intro be parent prev h
    show expandLoop (addImportE be _ _ _ _) _ seg rest = be
    rw [addImportE_frozen be _ _ _ _ h]
    exact ih be _ seg h

theorem expandLoop_mono :
    ∀ (parts : List String) (be : Builder × Option ApiError) (parent prev : String) (k x : String),
      x ∈ lookupList be.1.module_imports k →
      x ∈ lookupList (expandLoop be parent prev parts).1.module_imports k := by
  intro parts
  induction parts with
  | nil => intro be parent prev k x hx; exact hx
  | cons seg rest ih =>
    intro be parent prev k x hx
    exact ih _ _ seg k x (addImportE_mono be _ _ _ _ k x hx)

theorem expandLoop_contains :
    ∀ (parts : List String) (be : Builder × Option ApiError) (parent prev : String),
      (expandLoop be parent prev parts).2 = none →
      ∀ j, j < parts.length →
        format_import (_OUTPUT_MODULE ++ "." ++ (loopParents parent prev parts).getD j "")
            (parts.getD j "") (parts.getD j "")
          ∈ lookupList (expandLoop be parent prev parts).1.module_imports
              ((loopParents parent prev parts).getD j "") := by
  intro parts
  induction parts with
  | nil =>
    intro be parent prev _ j hj
    cases hj
  | cons seg rest ih =>
    intro be parent prev hok j hj
    have hstep : (addImportE be (if parent = "" then prev else parent ++ "." ++ prev)
        (_OUTPUT_MODULE ++ "." ++ (if parent = "" then prev else parent ++ "." ++ prev))
        seg seg).2 = none := by
      cases hb : (addImportE be (if parent = "" then prev else parent ++ "." ++ prev)
          (_OUTPUT_MODULE ++ "." ++ (if parent = "" then prev else parent ++ "." ++ prev))
          seg seg).2 with
      | none => rfl
      | some e =>
        have hfz := expandLoop_frozen rest
          (addImportE be (if parent = "" then prev else parent ++ "." ++ prev)
            (_OUTPUT_MODULE ++ "." ++ (if parent = "" then prev else parent ++ "." ++ prev))
            seg seg) (if parent = "" then prev else parent ++ "." ++ prev) seg
          (by rw [hb]; rfl)
        have : (expandLoop be parent prev (seg :: rest)).2 = some e := by
          show (expandLoop (addImportE be _ _ _ _) _ seg rest).2 = some e
          rw [hfz]
          exact hb
        rw [hok] at this
        cases this
    cases j with
    | zero =>
      show format_import (_OUTPUT_MODULE ++ "." ++ (if parent = "" then prev
            else parent ++ "." ++ prev)) seg seg
          ∈ lookupList (expandLoop (addImportE be _ _ _ _) _ seg rest).1.module_imports
              (if parent = "" then prev else parent ++ "." ++ prev)
      refine expandLoop_mono rest _ _ seg _ _ ?_
      cases hbe : be.2 with
      | some e =>
        have := addImportE_frozen be (if parent = "" then prev else parent ++ "." ++ prev)
          (_OUTPUT_MODULE ++ "." ++ (if parent = "" then prev else parent ++ "." ++ prev))
          seg seg (by rw [hbe]; rfl)
        rw [this] at hstep
        rw [hbe] at hstep
        cases hstep
      | none =>
        obtain ⟨b, e2⟩ := be
        have he2 : e2 = none := hbe
        subst he2
        show format_import _ seg seg
          ∈ lookupList (add_import b _ _ seg seg).1.module_imports _
        have hsp : add_import b (if parent = "" then prev else parent ++ "." ++ prev)
            (_OUTPUT_MODULE ++ "." ++ (if parent = "" then prev else parent ++ "." ++ prev))
            seg seg
            = ((add_import b (if parent = "" then prev else parent ++ "." ++ prev)
                (_OUTPUT_MODULE ++ "." ++ (if parent = "" then prev else parent ++ "." ++ prev))
                seg seg).1, none) := by
          have := hstep
          exact Prod.ext rfl this
        exact add_import_self _ _ _ _ _ _ hsp
    | succ j' =>
      have hj' : j' < rest.length := Nat.lt_of_succ_lt_succ hj
      have := ih (addImportE be (if parent = "" then prev else parent ++ "." ++ prev)
          (_OUTPUT_MODULE ++ "." ++ (if parent = "" then prev else parent ++ "." ++ prev))
          seg seg) (if parent = "" then prev else parent ++ "." ++ prev) seg hok j' hj'
      exact this

/-- Closed form for the evolving `parent_module`: when no namespace
segment is empty, the parent at loop step `j` is the dot-join of the
already-walked prefix. -/
theorem loopParents_getD :
    ∀ (rest : List String) (pre : List String) (prev : String),
      (∀ s ∈ pre, s ≠ "") → prev ≠ "" → (∀ s ∈ rest, s ≠ "") →
      ∀ j, j < rest.length →
        (loopParents (pyJoin "." pre) prev rest).getD j ""
          = pyJoin "." ((pre ++ prev :: rest).take (pre.length + 1 + j)) := by
  intro rest
  induction rest with
  | nil =>
    intro pre prev _ _ _ j hj
    cases hj
  | cons seg rest' ih =>
    intro pre prev hpre hprev hrest j hj
    have hparent2 : (if pyJoin "." pre = "" then prev else pyJoin "." pre ++ "." ++ prev)
        = pyJoin "." (pre ++ [prev]) := by
      rw [pyJoin_append_singleton]
      by_cases hp : pre = []
      · subst hp
        rw [if_pos (show pyJoin "." ([] : List String) = "" from rfl), if_pos rfl]
      · rw [if_neg (pyJoin_ne_empty pre hpre hp), if_neg hp]
    show ((if pyJoin "." pre = "" then prev else pyJoin "." pre ++ "." ++ prev) ::
        loopParents (if pyJoin "." pre = "" then prev else pyJoin "." pre ++ "." ++ prev)
          seg rest').getD j "" = _
    cases j with
    | zero =>
      show (if pyJoin "." pre = "" then prev else pyJoin "." pre ++ "." ++ prev)
          = pyJoin "." ((pre ++ prev :: seg :: rest').take (pre.length + 1 + 0))
      rw [hparent2]
      have htake : (pre ++ prev :: seg :: rest').take (pre.length + 1 + 0) = pre ++ [prev] := by
        have harr : pre ++ prev :: seg :: rest' = (pre ++ [prev]) ++ (seg :: rest') := by simp
        rw [harr]
        exact List.take_left' (by simp)
      rw [htake]
    | succ j' =>
      have hj' : j' < rest'.length := Nat.lt_of_succ_lt_succ hj
      show (loopParents (if pyJoin "." pre = "" then prev else pyJoin "." pre ++ "." ++ prev)
          seg rest').getD j' "" = _
      rw [hparent2]
      rw [ih (pre ++ [prev]) seg
        (by
          intro s hs
          rcases List.mem_append.mp hs with h1 | h1
          · exact hpre s h1
          · rw [List.mem_singleton.mp h1]
            exact hprev)
        (hrest seg (by simp))
        (fun s hs => hrest s (List.mem_cons_of_mem _ hs)) j' hj']
      have harr : (pre ++ [prev]) ++ seg :: rest' = pre ++ prev :: seg :: rest' := by simp
      rw [harr]
      have hlen : (pre ++ [prev]).length + 1 + j' = pre.length + 1 + (j' + 1) := by
        simp
        omega
      rw [hlen]

theorem expandModule_frozen (be : Builder × Option ApiError) (k : String)
    (h : be.2.isSome = true) : expandModule be k = be := by
  unfold expandModule
  split
  · rfl
  · cases hp : pySplit k "." with
    | nil => rfl
    | cons seg rest =>
      show expandLoop (addImportE be "" _OUTPUT_MODULE seg seg) "" seg rest = be
      rw [addImportE_frozen be _ _ _ _ h]
      exact expandLoop_frozen rest be "" seg h

theorem expandModule_mono (be : Builder × Option ApiError) (k : String) :
    ∀ n x, x ∈ lookupList be.1.module_imports n →
      x ∈ lookupList (expandModule be k).1.module_imports n := by
  intro n x hx
  unfold expandModule
  split
  · exact hx
  · cases hp : pySplit k "." with
    | nil => exact hx
    | cons seg rest =>
      exact expandLoop_mono rest _ "" seg n x (addImportE_mono be "" _OUTPUT_MODULE seg seg n x hx)

theorem expandModule_contains (be : Builder × Option ApiError) (k : String)
    (hok : (expandModule be k).2 = none) (hk : k ≠ "")
    (hall : ∀ s ∈ pySplit k ".", s ≠ "") :
    ∀ i, i < (pySplit k ".").length →
      format_import (if i = 0 then _OUTPUT_MODULE
          else _OUTPUT_MODULE ++ "." ++ pyJoin "." ((pySplit k ".").take i))
        ((pySplit k ".").getD i "") ((pySplit k ".").getD i "")
        ∈ lookupList (expandModule be k).1.module_imports
            (pyJoin "." ((pySplit k ".").take i)) := by
  intro i hi
  have hme : expandModule be k = (match pySplit k "." with
      | [] => be
      | seg :: rest => expandLoop (addImportE be "" _OUTPUT_MODULE seg seg) "" seg rest) := by
    unfold expandModule
    rw [if_neg hk]
  cases hp : pySplit k "." with
  | nil =>
    rw [hp] at hi
    cases hi
  | cons seg rest =>
    have hme2 : expandModule be k
        = expandLoop (addImportE be "" _OUTPUT_MODULE seg seg) "" seg rest := by
      rw [hme, hp]
    have hok2 : (expandLoop (addImportE be "" _OUTPUT_MODULE seg seg) "" seg rest).2 = none := by
      rw [← hme2]
      exact hok
    rw [hme2]
    rw [hp] at hi hall
    have hstep : (addImportE be "" _OUTPUT_MODULE seg seg).2 = none := by
      cases hb : (addImportE be "" _OUTPUT_MODULE seg seg).2 with
      | none => rfl
      | some e =>
        have hfz := expandLoop_frozen rest (addImportE be "" _OUTPUT_MODULE seg seg) "" seg
          (by rw [hb]; rfl)
        rw [hfz] at hok2
        rw [hb] at hok2
        cases hok2
    cases i with
    | zero =>
      show format_import _OUTPUT_MODULE ((seg :: rest).getD 0 "") ((seg :: rest).getD 0 "")
          ∈ lookupList
              (expandLoop (addImportE be "" _OUTPUT_MODULE seg seg) "" seg rest).1.module_imports
              (pyJoin "." ((seg :: rest).take 0))
      refine expandLoop_mono rest _ "" seg _ _ ?_
      cases hbe : be.2 with
      | some e =>
        have := addImportE_frozen be "" _OUTPUT_MODULE seg seg (by rw [hbe]; rfl)
        rw [this] at hstep
        rw [hbe] at hstep
        cases hstep
      | none =>
        obtain ⟨b, e2⟩ := be
        have he2 : e2 = none := hbe
        subst he2
        have hsp : add_import b "" _OUTPUT_MODULE seg seg
            = ((add_import b "" _OUTPUT_MODULE seg seg).1, none) := by
          exact Prod.ext rfl hstep
        exact add_import_self _ _ _ _ _ _ hsp
    | succ j =>
      have hj : j < rest.length := Nat.lt_of_succ_lt_succ hi
      have hlp := expandLoop_contains rest (addImportE be "" _OUTPUT_MODULE seg seg) "" seg
        hok2 j hj
      have hcf' : (loopParents "" seg rest).getD j ""
          = pyJoin "." ((([] : List String) ++ seg :: rest).take (0 + 1 + j)) :=
        loopParents_getD rest [] seg (by intro s hs; cases hs) (hall seg (by simp))
          (fun s hs => hall s (List.mem_cons_of_mem _ hs)) j hj
      have harith : 0 + 1 + j = j + 1 := by omega
      rw [harith] at hcf'
      have hcf2 : (loopParents "" seg rest).getD j ""
          = pyJoin "." ((seg :: rest).take (j + 1)) := hcf'
      rw [hcf2] at hlp
      exact hlp

theorem foldl_expand_frozen :
    ∀ (keys : List String) (be : Builder × Option ApiError), be.2.isSome = true →
      keys.foldl expandModule be = be := by
  intro keys
  induction keys with
  | nil => intro be _; rfl
  | cons kh kt ih =>
    intro be h
    rw [List.foldl_cons, expandModule_frozen be kh h]
    exact ih be h

theorem foldl_expand_mono :
    ∀ (keys : List String) (be : Builder × Option ApiError) (n x : String),
      x ∈ lookupList be.1.module_imports n →
      x ∈ lookupList (keys.foldl expandModule be).1.module_imports n := by
  intro keys
  induction keys with
  | nil => intro be n x hx; exact hx
  | cons kh kt ih =>
    intro be n x hx
    rw [List.foldl_cons]
    exact ih (expandModule be kh) n x (expandModule_mono be kh n x hx)

theorem foldl_expand_reached :
    ∀ (keys : List String) (be : Builder × Option ApiError) (k0 : String),
      k0 ∈ keys → (keys.foldl expandModule be).2 = none →
      ∃ be', (expandModule be' k0).2 = none ∧
        ∀ n x, x ∈ lookupList (expandModule be' k0).1.module_imports n →
          x ∈ lookupList (keys.foldl expandModule be).1.module_imports n := by
  intro keys
  induction keys with
  | nil => intro be k0 hk; cases hk
  | cons kh kt ih =>
    intro be k0 hk hok
    rw [List.foldl_cons] at hok ⊢
    by_cases heq : k0 = kh
    · subst heq
      refine ⟨be, ?_, ?_⟩
      · cases hb : (expandModule be k0).2 with
        | none => rfl
        | some e =>
          have := foldl_expand_frozen kt (expandModule be k0) (by rw [hb]; rfl)
          rw [this] at hok
          rw [hb] at hok
          cases hok
      · intro n x hx
        exact foldl_expand_mono kt (expandModule be k0) n x hx
    · have hk' : k0 ∈ kt := by
        rcases List.mem_cons.mp hk with h | h
        · exact absurd h heq
        · exact h
      exact ih (expandModule be kh) k0 hk' hok

/-! ### Claim C2: namespace closure expansion -/

/-- C2: after an error-free `get_api_imports` run, every destination
namespace `k` that held imports after the scan has, for each of its
dotted segments (no segment empty) walked from the root, an import of
that segment's bare name added into the segment's parent namespace,
sourced from the synthetic output module path extended by the
already-walked prefix. -/
theorem c2_closure_expansion (mods : List PyModule) (k : String) (l : List String) (i : Nat)
    (hok : (get_api_imports mods).err = none)
    (hmem : (k, l) ∈ (scanModules mods).builder.module_imports)
    (hne : l ≠ []) (hk : k ≠ "")
    (hseg : ∀ s ∈ pySplit k ".", s ≠ "")
    (hi : i < (pySplit k ".").length) :
    format_import (if i = 0 then _OUTPUT_MODULE
        else _OUTPUT_MODULE ++ "." ++ pyJoin "." ((pySplit k ".").take i))
      ((pySplit k ".").getD i "") ((pySplit k ".").getD i "")
      ∈ lookupList (get_api_imports mods).builder.module_imports
          (pyJoin "." ((pySplit k ".").take i)) := by
  have hbe2 : (((scanModules mods).builder.module_imports.map Prod.fst).foldl expandModule
      ((scanModules mods).builder, (scanModules mods).err)).2 = none := hok
  have hkmem : k ∈ (scanModules mods).builder.module_imports.map Prod.fst :=
    List.mem_map.mpr ⟨(k, l), hmem, rfl⟩
  obtain ⟨be', hok', hmono⟩ := foldl_expand_reached
    ((scanModules mods).builder.module_imports.map Prod.fst)
    ((scanModules mods).builder, (scanModules mods).err) k hkmem hbe2
  have hin := expandModule_contains be' k hok' hk hseg i hi
  exact hmono _ _ hin

/-- Witness for C2: spec property P4 - a symbol exported at
`pkg.sub.Name` leaves the root namespace with a binding for `pkg` and
namespace `pkg` with a binding for `sub`. -/
theorem c2_closure_expansion_witness :
    format_import _OUTPUT_MODULE "pkg" "pkg"
      ∈ lookupList (get_api_imports [⟨"tensorflow.python.m",
          [⟨"Name", ⟨1, [], 1, some ["pkg.sub.Name"]⟩⟩]⟩]).builder.module_imports "" ∧
    format_import (_OUTPUT_MODULE ++ "." ++ "pkg") "sub" "sub"
      ∈ lookupList (get_api_imports [⟨"tensorflow.python.m",
          [⟨"Name", ⟨1, [], 1, some ["pkg.sub.Name"]⟩⟩]⟩]).builder.module_imports "pkg" :=
  ⟨c2_closure_expansion [⟨"tensorflow.python.m", [⟨"Name", ⟨1, [], 1, some ["pkg.sub.Name"]⟩⟩]⟩]
      "pkg.sub" ["from tensorflow.python.m import Name"] 0
      (by decide) (by decide) (by decide) (by decide) (by decide) (by decide),
   c2_closure_expansion [⟨"tensorflow.python.m", [⟨"Name", ⟨1, [], 1, some ["pkg.sub.Name"]⟩⟩]⟩]
      "pkg.sub" ["from tensorflow.python.m import Name"] 1
      (by decide) (by decide) (by decide) (by decide) (by decide) (by decide)⟩

/-! ### Write-loop and path-map lemmas -/

theorem writeLoop_go (pathMap : List (String × String)) :
    ∀ (imports : List (String × List String)) (w0 : List (String × String)) (m0 : List String),
      imports.foldl
        (fun acc kv =>
          match lookupStr pathMap kv.1 with
          | none => (acc.1, acc.2 ++ [missingFormat kv.1])
          | some path => (acc.1 ++ [(path, _GENERATED_FILE_HEADER ++ pyJoin "\n" kv.2)], acc.2))
        (w0, m0)
      = (w0 ++ imports.filterMap (fun kv => (lookupStr pathMap kv.1).map
            (fun path => (path, _GENERATED_FILE_HEADER ++ pyJoin "\n" kv.2))),
         m0 ++ (imports.filter (fun kv => (lookupStr pathMap kv.1).isNone)).map
            (fun kv => missingFormat kv.1)) := by
  intro imports
  induction imports with
  | nil =>
    intro w0 m0
    simp
  | cons kv rest ih =>
    intro w0 m0
    rw [List.foldl_cons]
    cases hl : lookupStr pathMap kv.1 with
    | none =>
      simp only [hl]
      rw [ih]
      simp [List.filterMap_cons, List.filter_cons, hl]
    | some path =>
      simp only [hl]
      rw [ih]
      simp [List.filterMap_cons, List.filter_cons, hl]

theorem writeLoop_spec (pathMap : List (String × String)) (imports : List (String × List String)) :
    writeLoop pathMap imports
      = (imports.filterMap (fun kv => (lookupStr pathMap kv.1).map
            (fun path => (path, _GENERATED_FILE_HEADER ++ pyJoin "\n" kv.2))),
         (imports.filter (fun kv => (lookupStr pathMap kv.1).isNone)).map
            (fun kv => missingFormat kv.1)) := by
  unfold writeLoop
  rw [writeLoop_go]
  simp

theorem create_api_files_eq (mods : List PyModule) (fs : List String)
    (pathMap : List (String × String)) (hb : buildPathMap fs = Except.ok pathMap)
    (hscan : (get_api_imports mods).err = none) :
    create_api_files mods fs
      = { createdFiles := pathMap.map Prod.snd,
          writtenFiles := (writeLoop pathMap (get_api_imports mods).builder.module_imports).1,
          err := if (writeLoop pathMap (get_api_imports mods).builder.module_imports).2 = []
            then none
            else some (ApiError.missingOutputs
              (sortStrings (writeLoop pathMap (get_api_imports mods).builder.module_imports).2)) } := by
  unfold create_api_files
  rw [hb]
  simp only [hscan]

theorem create_api_files_created (mods : List PyModule) (fs : List String)
    (pathMap : List (String × String)) (hb : buildPathMap fs = Except.ok pathMap) :
    (create_api_files mods fs).createdFiles = pathMap.map Prod.snd := by
  unfold create_api_files
  rw [hb]
  cases hscan : (get_api_imports mods).err with
  | none => simp only [hscan]
  | some e => simp only [hscan]

theorem mem_values_of_lookupStr (d : List (String × String)) (k v : String)
    (h : lookupStr d k = some v) : v ∈ d.map Prod.snd := by
  unfold lookupStr at h
  cases hf : d.find? (fun p => p.1 = k) with
  | none =>
    rw [hf] at h
    cases h
  | some p =>
    rw [hf] at h
    have hm := List.mem_of_find?_eq_some hf
    have hv : p.2 = v := Option.some.inj h
    rw [← hv]
    exact List.mem_map.mpr ⟨p, hm, rfl⟩

theorem create_api_files_written_sub (mods : List PyModule) (fs : List String)
    (pathMap : List (String × String)) (hb : buildPathMap fs = Except.ok pathMap) :
    ∀ p c, (p, c) ∈ (create_api_files mods fs).writtenFiles → p ∈ pathMap.map Prod.snd := by
  intro p c hpc
  unfold create_api_files at hpc
  rw [hb] at hpc
  cases hscan : (get_api_imports mods).err with
  | some e =>
    simp only [hscan] at hpc
    cases hpc
  | none =>
    simp only [hscan] at hpc
    rw [writeLoop_spec] at hpc
    obtain ⟨kv, _, hkv⟩ := List.mem_filterMap.mp hpc
    cases hl : lookupStr pathMap kv.1 with
    | none =>
      rw [hl] at hkv
      cases hkv
    | some path =>
      rw [hl] at hkv
      have : path = p := congrArg Prod.fst (Option.some.inj hkv)
      rw [← this]
      exact mem_values_of_lookupStr pathMap kv.1 path hl

theorem create_api_files_written_of (mods : List PyModule) (fs : List String)
    (pathMap : List (String × String)) (hb : buildPathMap fs = Except.ok pathMap)
    (hscan : (get_api_imports mods).err = none) :
    ∀ k l path, (k, l) ∈ (get_api_imports mods).builder.module_imports →
      lookupStr pathMap k = some path →
      (path, _GENERATED_FILE_HEADER ++ pyJoin "\n" l) ∈ (create_api_files mods fs).writtenFiles := by
  intro k l path hkl hl
  rw [create_api_files_eq mods fs pathMap hb hscan]
  simp only
  rw [writeLoop_spec]
  simp only
  refine List.mem_filterMap.mpr ⟨(k, l), hkl, ?_⟩
  rw [hl]
  rfl

theorem mem_insertSorted (x y : String) :
    ∀ (l : List String), y ∈ insertSorted x l ↔ y = x ∨ y ∈ l := by
  intro l
  induction l with
  | nil => simp [insertSorted]
  | cons a rest ih =>
    unfold insertSorted
    split
    · simp
    · rw [List.mem_cons, ih, List.mem_cons]
      tauto

theorem mem_sortStrings (y : String) :
    ∀ (l : List String), y ∈ sortStrings l ↔ y ∈ l := by
  intro l
  induction l with
  | nil => simp [sortStrings]
  | cons a rest ih =>
    show y ∈ insertSorted a (sortStrings rest) ↔ _
    rw [mem_insertSorted, ih, List.mem_cons]

/-! ### Claim C7: aggregated missing-output error -/

/-- C7: namespaces with imports but no declared output path are not
failed individually - with none missing the run ends without error; with
any missing, after the write loop a single aggregated error carries the
sorted list of every missing path (exactly the formatted paths of the
undeclared namespaces); namespaces that do have declared paths are still
written with the header plus their statements. -/
theorem c7_aggregated_missing (mods : List PyModule) (fs : List String)
    (pathMap : List (String × String))
    (hb : buildPathMap fs = Except.ok pathMap)
    (hscan : (get_api_imports mods).err = none) :
    ((∀ kv ∈ (get_api_imports mods).builder.module_imports,
        (lookupStr pathMap kv.1).isSome = true) → (create_api_files mods fs).err = none) ∧
    (∀ kv0 ∈ (get_api_imports mods).builder.module_imports, lookupStr pathMap kv0.1 = none →
      (create_api_files mods fs).err = some (ApiError.missingOutputs (sortStrings
        (((get_api_imports mods).builder.module_imports.filter
            (fun kv => (lookupStr pathMap kv.1).isNone)).map (fun kv => missingFormat kv.1)))) ∧
      (∀ p, p ∈ sortStrings (((get_api_imports mods).builder.module_imports.filter
            (fun kv => (lookupStr pathMap kv.1).isNone)).map (fun kv => missingFormat kv.1))
        ↔ ∃ kv2, kv2 ∈ (get_api_imports mods).builder.module_imports ∧
            lookupStr pathMap kv2.1 = none ∧ p = missingFormat kv2.1)) ∧
    (∀ k l path, (k, l) ∈ (get_api_imports mods).builder.module_imports →
      lookupStr pathMap k = some path →
      (path, _GENERATED_FILE_HEADER ++ pyJoin "\n" l)
        ∈ (create_api_files mods fs).writtenFiles) := by
  refine ⟨fun hall => ?_, fun kv0 hkv0 hnone => ?_,
    create_api_files_written_of mods fs pathMap hb hscan⟩
  · rw [create_api_files_eq mods fs pathMap hb hscan]
    simp only
    rw [writeLoop_spec]
    simp only
    have hf : (get_api_imports mods).builder.module_imports.filter
        (fun kv => (lookupStr pathMap kv.1).isNone) = [] := by
      rw [List.filter_eq_nil_iff]
      intro kv hkv
      obtain ⟨v, hv⟩ := Option.isSome_iff_exists.mp (hall kv hkv)
      rw [hv]
      simp
    rw [hf]
    rfl
  · rw [create_api_files_eq mods fs pathMap hb hscan]
    simp only
    rw [writeLoop_spec]
    simp only
    have hmem : missingFormat kv0.1
        ∈ ((get_api_imports mods).builder.module_imports.filter
            (fun kv => (lookupStr pathMap kv.1).isNone)).map (fun kv => missingFormat kv.1) :=
      List.mem_map.mpr ⟨kv0, List.mem_filter.mpr ⟨hkv0, by rw [hnone]; rfl⟩, rfl⟩
    rw [if_neg (fun hc => by rw [hc] at hmem; cases hmem)]
    refine ⟨rfl, fun p => ?_⟩
    rw [mem_sortStrings, List.mem_map]
    constructor
    · rintro ⟨kv2, hkv2f, rfl⟩
      obtain ⟨h1, h2⟩ := List.mem_filter.mp hkv2f
      exact ⟨kv2, h1, Option.isNone_iff_eq_none.mp h2, rfl⟩
    · rintro ⟨kv2, h1, h2, rfl⟩
      exact ⟨kv2, List.mem_filter.mpr ⟨h1, by rw [h2]; rfl⟩, rfl⟩

/-- Witness for C7: with only the root's output file declared, the
namespace `pkg` (which accumulated an import) is reported in the single
aggregated error, while the root file is still written. -/
theorem c7_aggregated_missing_witness :
    (create_api_files [⟨"tensorflow.python.m", [⟨"Name", ⟨1, [], 1, some ["pkg.Name"]⟩⟩]⟩]
        ["base/api/__init__.py"]).err
      = some (ApiError.missingOutputs (sortStrings
        (((get_api_imports [⟨"tensorflow.python.m",
              [⟨"Name", ⟨1, [], 1, some ["pkg.Name"]⟩⟩]⟩]).builder.module_imports.filter
            (fun kv => (lookupStr [("", "base/api/__init__.py")] kv.1).isNone)).map
          (fun kv => missingFormat kv.1)))) ∧
    ("base/api/__init__.py", _GENERATED_FILE_HEADER
        ++ pyJoin "\n" ["from tensorflow.tools.api.generator.api import pkg"])
      ∈ (create_api_files [⟨"tensorflow.python.m", [⟨"Name", ⟨1, [], 1, some ["pkg.Name"]⟩⟩]⟩]
          ["base/api/__init__.py"]).writtenFiles :=
  ⟨((c7_aggregated_missing [⟨"tensorflow.python.m", [⟨"Name", ⟨1, [], 1, some ["pkg.Name"]⟩⟩]⟩]
        ["base/api/__init__.py"] [("", "base/api/__init__.py")] (by rfl) (by decide)).2.1
      ("pkg", ["from tensorflow.python.m import Name"]) (by decide) (by decide)).1,
   (c7_aggregated_missing [⟨"tensorflow.python.m", [⟨"Name", ⟨1, [], 1, some ["pkg.Name"]⟩⟩]⟩]
        ["base/api/__init__.py"] [("", "base/api/__init__.py")] (by rfl) (by decide)).2.2
      "" ["from tensorflow.tools.api.generator.api import pkg"] "base/api/__init__.py"
      (by decide) (by decide)⟩

/-! ### Path-map construction lemmas -/

theorem lookupStr_dictInsert_self (d : List (String × String)) (k v : String) :
    lookupStr (dictInsert d k v) k = some v := by
  unfold dictInsert
  split
  next h =>
    unfold lookupStr
    rw [List.find?_map]
    have hfg : ((fun p : String × String => decide (p.1 = k)) ∘
        (fun p => if p.1 = k then (k, v) else p))
        = (fun p : String × String => decide (p.1 = k)) := by
      funext p
      by_cases hp : p.1 = k <;> simp [Function.comp, hp]
    rw [hfg]
    cases hf : d.find? (fun p => p.1 = k) with
    | none =>
      rcases List.any_eq_true.mp h with ⟨p, hp, hpk⟩
      have := List.find?_eq_none.mp hf p hp
      simp at this hpk
      exact absurd hpk this
    | some p =>
      have hp := List.find?_some hf
      simp only [decide_eq_true_eq] at hp
      simp [hp]
  next h =>
    unfold lookupStr
    rw [List.find?_append]
    have hfn : d.find? (fun p => p.1 = k) = none := by
      rw [List.find?_eq_none]
      intro p hp hc
      apply h
      rw [List.any_eq_true]
      exact ⟨p, hp, hc⟩
    rw [hfn]
    simp [List.find?]

theorem lookupStr_dictInsert_ne (d : List (String × String)) (k v k' : String) (h : k' ≠ k) :
    lookupStr (dictInsert d k v) k' = lookupStr d k' := by
  unfold dictInsert
  split
  next =>
    unfold lookupStr
    rw [List.find?_map]
    have hfg : ((fun p : String × String => decide (p.1 = k')) ∘
        (fun p => if p.1 = k then (k, v) else p))
        = (fun p : String × String => decide (p.1 = k')) := by
      funext p
      by_cases hp : p.1 = k
      · simp only [Function.comp, if_pos hp]
        have h1 : (k = k') = False := by
          simp
          intro hc
          exact h hc.symm
        have h2 : (p.1 = k') = False := by
          rw [hp]
          exact h1
        simp [h1, h2]
      · simp [Function.comp, hp]
    rw [hfg]
    cases hf : d.find? (fun p => p.1 = k') with
    | none => rfl
    | some p =>
      have hp := List.find?_some hf
      simp only [decide_eq_true_eq] at hp
      have hpk : ¬ p.1 = k := by
        rw [hp]
        exact h
      simp [hpk]
  next =>
    unfold lookupStr
    rw [List.find?_append]
    cases hf : d.find? (fun p => p.1 = k') with
    | some p => simp
    | none =>
      simp only [Option.none_or]
      have : (decide (k = k')) = false := by
        simp
        intro hc
        exact h hc.symm
      simp [List.find?, this]

/-- The path map built by lines 196-210 keeps, for each namespace key,
the normalized path of the *last* declared file deriving that key. -/
theorem buildPathMap_lookup :
    ∀ (fs : List String) (d0 d : List (String × String)),
      List.foldlM
        (fun d f =>
          if pyContains f _API_DIR = false then
            Except.error (ApiError.valueError
              ("Output files must be in api/ directory, found " ++ f ++ "."))
          else Except.ok (dictInsert d (moduleNameOfPath f) (normpath f)))
        d0 fs = Except.ok d →
      ∀ k, lookupStr d k
        = ((fs.filter (fun f => moduleNameOfPath f = k)).getLast?).elim
            (lookupStr d0 k) (fun f => some (normpath f)) := by
  intro fs
  induction fs with
  | nil =>
    intro d0 d h k
    have hd : d0 = d := by
      rw [List.foldlM_nil] at h
      exact Except.ok.inj h
    rw [← hd]
    rfl
  | cons f fs' ih =>
    intro d0 d h k
    rw [List.foldlM_cons] at h
    by_cases hc : pyContains f _API_DIR = false
    · rw [if_pos hc] at h
      cases h
    · rw [if_neg hc] at h
      have h' : List.foldlM _ (dictInsert d0 (moduleNameOfPath f) (normpath f)) fs'
          = Except.ok d := h
      have := ih (dictInsert d0 (moduleNameOfPath f) (normpath f)) d h' k
      rw [this]
      rw [List.filter_cons]
      by_cases hk : moduleNameOfPath f = k
      · rw [if_pos (by simp [hk])]
        rw [List.getLast?_cons]
        cases hl : (fs'.filter (fun g => moduleNameOfPath g = k)).getLast? with
        | some g => rfl
        | none =>
          show lookupStr (dictInsert d0 (moduleNameOfPath f) (normpath f)) k
            = some (normpath f)
          rw [← hk]
          exact lookupStr_dictInsert_self d0 (moduleNameOfPath f) (normpath f)
      · rw [if_neg (by simp [hk])]
        cases hl : (fs'.filter (fun g => moduleNameOfPath g = k)).getLast? with
        | some g => rfl
        | none =>
          show lookupStr (dictInsert d0 (moduleNameOfPath f) (normpath f)) k = lookupStr d0 k
          exact lookupStr_dictInsert_ne d0 (moduleNameOfPath f) (normpath f) k
            (fun hc2 => hk hc2.symm)

/-- Membership in a drop is membership at a late index. -/
theorem mem_drop_index (l : List String) (n : Nat) (x : String) (h : x ∈ l.drop n) :
    ∃ q, n ≤ q ∧ q < l.length ∧ l.getD q "" = x := by
  obtain ⟨m, hm⟩ := List.mem_iff_get?.mp h
  rw [List.get?_drop] at hm
  refine ⟨n + m, Nat.le_add_right n m, ?_, ?_⟩
  · by_contra hc
    rw [List.get?_eq_none.mpr (Nat.le_of_not_lt hc)] at hm
    cases hm
  · show (l.get? (n + m)).getD "" = x
    rw [hm]
    rfl

/-- If position `j` is the last position whose path derives key `k`,
the filtered list ends at that path. -/
theorem filter_getLast_at (fs : List String) (j : Nat) (k : String) (hjl : j < fs.length)
    (hj : moduleNameOfPath (fs.getD j "") = k)
    (hlast : ∀ q, j < q → q < fs.length → moduleNameOfPath (fs.getD q "") ≠ k) :
    (fs.filter (fun f => moduleNameOfPath f = k)).getLast? = some (fs.getD j "") := by
  conv_lhs => rw [show fs = fs.take (j + 1) ++ fs.drop (j + 1)
    from (List.take_append_drop (j + 1) fs).symm]
  rw [List.filter_append]
  have hdrop : (fs.drop (j + 1)).filter (fun f => moduleNameOfPath f = k) = [] := by
    rw [List.filter_eq_nil_iff]
    intro x hx hc
    obtain ⟨q, hq1, hq2, hq3⟩ := mem_drop_index fs (j + 1) x hx
    exact hlast q hq1 hq2 (by rw [hq3]; exact of_decide_eq_true hc)
  rw [hdrop, List.append_nil]
  have htake : fs.take (j + 1) = fs.take j ++ [fs.getD j ""] := by
    rw [List.take_succ]
    congr 1
    rw [List.getElem?_eq_getElem hjl]
    show [fs[j]] = [fs.getD j ""]
    rw [List.getD_eq_getElem fs "" hjl]
  rw [htake, List.filter_append]
  rw [show ([fs.getD j ""].filter (fun f => moduleNameOfPath f = k))
      = [fs.getD j ""] from by
    rw [List.filter_cons, if_pos (by simp only [decide_eq_true_eq]; exact hj)]
    rfl]
  exact List.getLast?_concat _

/-! ### Claim C10: duplicate namespace keys among output paths -/

/-- C10: when two declared output paths derive the same namespace key
and the later one is the last with that key, only the later path is in
the mapping, is created, and is written when the namespace has imports;
the earlier path (when it does not coincide with another entry's
normalized path) is neither created nor written. -/
theorem c10_duplicate_output_key (mods : List PyModule) (fs : List String)
    (pathMap : List (String × String)) (i j : Nat)
    (hb : buildPathMap fs = Except.ok pathMap)
    (hij : i < j) (hjl : j < fs.length)
    (hkey : moduleNameOfPath (fs.getD i "") = moduleNameOfPath (fs.getD j ""))
    (hlast : ∀ q, j < q → q < fs.length →
      moduleNameOfPath (fs.getD q "") ≠ moduleNameOfPath (fs.getD j "")) :
    lookupStr pathMap (moduleNameOfPath (fs.getD j "")) = some (normpath (fs.getD j "")) ∧
    normpath (fs.getD j "") ∈ (create_api_files mods fs).createdFiles ∧
    (∀ l, (get_api_imports mods).err = none →
      (moduleNameOfPath (fs.getD j ""), l) ∈ (get_api_imports mods).builder.module_imports →
      (normpath (fs.getD j ""), _GENERATED_FILE_HEADER ++ pyJoin "\n" l)
        ∈ (create_api_files mods fs).writtenFiles) ∧
    (normpath (fs.getD i "") ∉ pathMap.map Prod.snd →
      normpath (fs.getD i "") ∉ (create_api_files mods fs).createdFiles ∧
      ∀ c, (normpath (fs.getD i ""), c) ∉ (create_api_files mods fs).writtenFiles) := by
  have h1 : lookupStr pathMap (moduleNameOfPath (fs.getD j ""))
      = some (normpath (fs.getD j "")) := by
    have hbl := buildPathMap_lookup fs [] pathMap hb (moduleNameOfPath (fs.getD j ""))
    rw [filter_getLast_at fs j (moduleNameOfPath (fs.getD j "")) hjl rfl hlast] at hbl
    exact hbl
  refine ⟨h1, ?_, ?_, ?_⟩
  · rw [create_api_files_created mods fs pathMap hb]
    exact mem_values_of_lookupStr pathMap _ _ h1
  · intro l hscan hmem
    exact create_api_files_written_of mods fs pathMap hb hscan _ l _ hmem h1
  · intro hnv
    refine ⟨?_, ?_⟩
    · rw [create_api_files_created mods fs pathMap hb]
      exact hnv
    · intro c hc
      exact hnv (create_api_files_written_sub mods fs pathMap hb _ c hc)

/-- Witness for C10: `x/api/a/__init__.py` and `y/api/a/__init__.py`
both derive namespace key `a`; the later path wins the mapping, is
created and is populated with the namespace's import, while the earlier
path is neither created nor written. -/
theorem c10_duplicate_output_key_witness :
    lookupStr [("a", "y/api/a/__init__.py"), ("", "base/api/__init__.py")] "a"
      = some "y/api/a/__init__.py" ∧
    "y/api/a/__init__.py" ∈ (create_api_files
        [⟨"tensorflow.python.m", [⟨"X", ⟨1, [], 1, some ["a.X"]⟩⟩]⟩]
        ["x/api/a/__init__.py", "y/api/a/__init__.py", "base/api/__init__.py"]).createdFiles ∧
    ("y/api/a/__init__.py", _GENERATED_FILE_HEADER
        ++ pyJoin "\n" ["from tensorflow.python.m import X"])
      ∈ (create_api_files [⟨"tensorflow.python.m", [⟨"X", ⟨1, [], 1, some ["a.X"]⟩⟩]⟩]
          ["x/api/a/__init__.py", "y/api/a/__init__.py", "base/api/__init__.py"]).writtenFiles ∧
    ("x/api/a/__init__.py" ∉ (create_api_files
        [⟨"tensorflow.python.m", [⟨"X", ⟨1, [], 1, some ["a.X"]⟩⟩]⟩]
        ["x/api/a/__init__.py", "y/api/a/__init__.py", "base/api/__init__.py"]).createdFiles ∧
      ∀ c, ("x/api/a/__init__.py", c) ∉ (create_api_files
        [⟨"tensorflow.python.m", [⟨"X", ⟨1, [], 1, some ["a.X"]⟩⟩]⟩]
        ["x/api/a/__init__.py", "y/api/a/__init__.py", "base/api/__init__.py"]).writtenFiles) :=
  ⟨(c10_duplicate_output_key [⟨"tensorflow.python.m", [⟨"X", ⟨1, [], 1, some ["a.X"]⟩⟩]⟩]
      ["x/api/a/__init__.py", "y/api/a/__init__.py", "base/api/__init__.py"]
      [("a", "y/api/a/__init__.py"), ("", "base/api/__init__.py")] 0 1 (by rfl)
      (by decide) (by decide) (by decide)
      (by intro q h1 h2; have h3 : q < 3 := h2; have hq : q = 2 := Nat.le_antisymm (Nat.lt_succ_iff.mp h3) h1; subst hq; decide)).1,
   (c10_duplicate_output_key [⟨"tensorflow.python.m", [⟨"X", ⟨1, [], 1, some ["a.X"]⟩⟩]⟩]
      ["x/api/a/__init__.py", "y/api/a/__init__.py", "base/api/__init__.py"]
      [("a", "y/api/a/__init__.py"), ("", "base/api/__init__.py")] 0 1 (by rfl)
      (by decide) (by decide) (by decide)
      (by intro q h1 h2; have h3 : q < 3 := h2; have hq : q = 2 := Nat.le_antisymm (Nat.lt_succ_iff.mp h3) h1; subst hq; decide)).2.1,
   (c10_duplicate_output_key [⟨"tensorflow.python.m", [⟨"X", ⟨1, [], 1, some ["a.X"]⟩⟩]⟩]
      ["x/api/a/__init__.py", "y/api/a/__init__.py", "base/api/__init__.py"]
      [("a", "y/api/a/__init__.py"), ("", "base/api/__init__.py")] 0 1 (by rfl)
      (by decide) (by decide) (by decide)
      (by intro q h1 h2; have h3 : q < 3 := h2; have hq : q = 2 := Nat.le_antisymm (Nat.lt_succ_iff.mp h3) h1; subst hq; decide)).2.2.1
      ["from tensorflow.python.m import X"] (by decide) (by decide),
   (c10_duplicate_output_key [⟨"tensorflow.python.m", [⟨"X", ⟨1, [], 1, some ["a.X"]⟩⟩]⟩]
      ["x/api/a/__init__.py", "y/api/a/__init__.py", "base/api/__init__.py"]
      [("a", "y/api/a/__init__.py"), ("", "base/api/__init__.py")] 0 1 (by rfl)
      (by decide) (by decide) (by decide)
      (by intro q h1 h2; have h3 : q < 3 := h2; have hq : q = 2 := Nat.le_antisymm (Nat.lt_succ_iff.mp h3) h1; subst hq; decide)).2.2.2 (by decide)⟩
